import Mathlib

/-!
Verification development for the BiblioSense query-resolution core.

The Python sources (`utils/text_matching.py`, `utils/gpt_cache.py`, the
strategy-selection section of `app.py`) are shallowly embedded below.
Strings are embedded as lists of characters; Python `float` scores are
embedded as exact rationals; Python exceptions in fallible code are
embedded as `Option`.
-/

set_option maxRecDepth 4000

abbrev Str := List Char

/-- Turn a Lean string literal into the character-list representation. -/
def lit (s : String) : Str := s.data

/-- ASCII lowercasing, as used by Python `str.lower` on the ASCII range.
(Accented characters are left unchanged; all concrete inputs in this
development are chosen so this agrees with Python.) -/
def pyLower (c : Char) : Char :=
  if 'A' ≤ c ∧ c ≤ 'Z' then Char.ofNat (c.toNat + 32) else c

/-- ASCII uppercasing, as used by Python `str.upper` on the ASCII range. -/
def pyUpper (c : Char) : Char :=
  if 'a' ≤ c ∧ c ≤ 'z' then Char.ofNat (c.toNat - 32) else c

/-- Python whitespace characters for `str.strip` and `\s`. -/
def pyIsSpace (c : Char) : Bool :=
  c = ' ' ∨ c = '\t' ∨ c = '\n' ∨ c = '\r' ∨ c = '\x0b' ∨ c = '\x0c'

/-- Python `str.isalpha` on one character: ASCII letters, with all
non-ASCII codepoints treated as letters (covers the French range used by
the catalog). -/
def pyIsAlphaChar (c : Char) : Bool :=
  ('a' ≤ c ∧ c ≤ 'z') ∨ ('A' ≤ c ∧ c ≤ 'Z') ∨ c.toNat ≥ 128

/-- Word character for the regex `\b` boundary: `[a-zA-Z0-9_]` plus
non-ASCII letters (Python's `re` is Unicode-aware). -/
def isWordChar (c : Char) : Bool :=
  pyIsAlphaChar c ∨ ('0' ≤ c ∧ c ≤ '9') ∨ c = '_'

/-- Python `str.strip`. -/
def pyStrip (s : Str) : Str :=
  ((s.dropWhile pyIsSpace).reverse.dropWhile pyIsSpace).reverse

/-- `begWith p s` holds when `p` is a prefix of `s` (Python `startswith`). -/
def begWith : Str → Str → Bool
  | [], _ => true
  | _ :: _, [] => false
  | a :: ps, b :: ss => a = b && begWith ps ss

/-- Substring occurrence, Python's `p in s` on strings. -/
def strContains (p s : Str) : Bool :=
  match s with
  | [] => p.isEmpty
  | _ :: rest => begWith p s || strContains p rest

/-- One step of `str.split`: fold from the right collecting maximal
non-whitespace runs. -/
def splitWsAux (c : Char) (acc : List Str × Str) : List Str × Str :=
  if pyIsSpace c then (if acc.2.isEmpty then acc else (acc.2 :: acc.1, []))
  else (acc.1, c :: acc.2)

/-- Python `str.split()` with no argument: split on whitespace runs,
discarding empty pieces. -/
def splitWs (s : Str) : List Str :=
  let r := s.foldr splitWsAux ([], [])
  if r.2.isEmpty then r.1 else r.2 :: r.1

/-- One step of `re.sub(r'\s+', ' ', ·)`: collapse each maximal
whitespace run to a single space, folding from the right. -/
def collapseWsAux (c : Char) (acc : Str) : Str :=
  if pyIsSpace c then
    match acc with
    | ' ' :: _ => acc
    | _ => ' ' :: acc
  else c :: acc

/-- `re.sub(r'\s+', ' ', s)`. -/
def collapseWs (s : Str) : Str := s.foldr collapseWsAux []

/-- Left/right context characters for a `\b` word boundary; `none`
stands for the string edge (treated as a non-word character). -/
def isWordOpt : Option Char → Bool
  | none => false
  | some c => isWordChar c

/-- A `\b` boundary holds between context characters `l` and `r` when
exactly one side is a word character. -/
def boundaryOk (l r : Option Char) : Bool := isWordOpt l != isWordOpt r

/-- NFD accent stripping for one character (`unicodedata.normalize('NFD')`
followed by removal of combining marks).  Identity on ASCII; the common
French precomposed letters map to their base letters; combining marks
are dropped. -/
def stripAccentChar (c : Char) : Str :=
  if 0x300 ≤ c.toNat ∧ c.toNat ≤ 0x36F then []
  else if c = 'à' ∨ c = 'â' ∨ c = 'ä' then ['a']
  else if c = 'é' ∨ c = 'è' ∨ c = 'ê' ∨ c = 'ë' then ['e']
  else if c = 'î' ∨ c = 'ï' then ['i']
  else if c = 'ô' ∨ c = 'ö' then ['o']
  else if c = 'ù' ∨ c = 'û' ∨ c = 'ü' then ['u']
  else if c = 'ç' then ['c']
  else if c = 'À' ∨ c = 'Â' then ['A']
  else if c = 'É' ∨ c = 'È' ∨ c = 'Ê' then ['E']
  else if c = 'Î' then ['I']
  else if c = 'Ô' then ['O']
  else if c = 'Ù' ∨ c = 'Û' then ['U']
  else if c = 'Ç' then ['C']
  else [c]

def stripAccents (s : Str) : Str :=
  s.foldr (fun c acc => stripAccentChar c ++ acc) []

/-- Try each word of `ws` (regex alternation order) at the current
position: the word must be a prefix of `s` with a `\b` boundary on both
sides (`prev` is the character just before the current position).
Returns the matched word and the remaining suffix. -/
def findWordHere (ws : List Str) (prev : Option Char) (s : Str) :
    Option (Str × Str) :=
  match ws with
  | [] => none
  | w :: more =>
    if boundaryOk prev w.head? && begWith w s then
      let rest := s.drop w.length
      if boundaryOk w.getLast? rest.head? then some (w, rest)
      else findWordHere more prev s
    else findWordHere more prev s

/-- Fueled scan for `re.sub(r'\b(w1|w2|...)\b', '', ·)`: at each position
try the alternatives; on a match drop the matched word and continue after
it, otherwise keep the character and advance.  The fuel is the string
length (each step consumes at least one character for nonempty words). -/
def subWordsGo (ws : List Str) : Nat → Option Char → Str → Str
  | 0, _, s => s
  | _ + 1, _, [] => []
  | fuel + 1, prev, c :: rest =>
    match findWordHere ws prev (c :: rest) with
    | some (w, rest') =>
      let prev' := match w.getLast? with
                   | some ch => some ch
                   | none => prev
      subWordsGo ws fuel prev' rest'
    | none => c :: subWordsGo ws fuel (some c) rest

/-- `re.sub(r'\b(...)\b', '', s)` for a list of literal alternatives. -/
def subWords (ws : List Str) (s : Str) : Str :=
  subWordsGo ws s.length none s

/-- Does the literal pattern `p` (assumed nonempty) match at the current
position with `\b` boundaries on both sides? -/
def wwMatchesAt (p : Str) (prev : Option Char) (s : Str) : Bool :=
  boundaryOk prev p.head? && begWith p s &&
    boundaryOk
      (match p.getLast? with
       | some ch => some ch
       | none => prev)
      ((s.drop p.length).head?)

def wwSearchGo (p : Str) : Option Char → Str → Bool
  | prev, [] => wwMatchesAt p prev []
  | prev, c :: rest => wwMatchesAt p prev (c :: rest) || wwSearchGo p (some c) rest

/-- `re.search(r'\b' + re.escape(p) + r'\b', s) is not None` for a
nonempty literal pattern `p`. -/
def wholeWordSearch (p s : Str) : Bool := wwSearchGo p none s

/-- Honorific and role tokens removed by `normalize_text`
(regex alternation, in source order). -/
def honorifics : List Str :=
  [lit "auteur", lit "narrateur", lit "traducteur", lit "editeur",
   lit "dr", lit "prof", lit "mr", lit "mrs", lit "ms", lit "sir", lit "lady"]

/-- `normalize_text` from `utils/text_matching.py`: strip accents,
lowercase, strip, remove honorific tokens, remove `(`, `)`, `,`,
collapse whitespace, strip. -/
def normalize_text (text : Str) : Str :=
  if text.isEmpty then []
  else
    let t1 := stripAccents text
    let t2 := pyStrip (t1.map pyLower)
    let t3 := subWords honorifics t2
    let t4 := t3.filter (fun c => ¬(c = '(' ∨ c = ')' ∨ c = ','))
    pyStrip (collapseWs t4)

/-- Result of `extract_initials_and_names`. -/
structure NameParts where
  initials : List Str
  first_names : List Str
  last_names : List Str
  all_parts : List Str
  deriving Repr, DecidableEq

/-- Python `part.replace('.', '')`. -/
def removeDots (s : Str) : Str := s.filter (fun c => c ≠ '.')

/-- Python `str.isalpha`: nonempty and all alphabetic. -/
def pyIsAlphaStr (s : Str) : Bool := !s.isEmpty && s.all pyIsAlphaChar

/-- First index of `p` in `parts` (Python `list.index`). -/
def firstIdx (parts : List Str) (p : Str) : Nat := parts.findIdx (· = p)

/-- `extract_initials_and_names` from `utils/text_matching.py`. -/
def extract_initials_and_names (author_name : Str) : NameParts :=
  let parts := splitWs (normalize_text author_name)
  let base : NameParts := parts.foldl
    (fun r part =>
      if part.length ≤ 2 ∧ pyIsAlphaStr (removeDots part) then
        { r with initials := r.initials ++ [(removeDots part).map pyUpper] }
      else if part.length > 2 then
        if firstIdx parts part ≥ parts.length / 2 then
          { r with last_names := r.last_names ++ [part] }
        else
          { r with first_names := r.first_names ++ [part] }
      else r)
    ⟨[], [], [], parts⟩
  if base.initials.isEmpty ∧ ¬base.first_names.isEmpty then
    { base with
      initials := base.first_names.filterMap
        (fun fn => match fn with
                   | [] => none
                   | c :: _ => some [pyUpper c, '.']) }
  else base

/-- `author_similarity_score` from `utils/text_matching.py`.
Python's `0.4`/`0.2`/`0.6` float literals are embedded as the exact
rationals they denote in the source text; the loops with inner `break`
award each weight once per query-side token having a matching book-side
token. -/
def author_similarity_score (query_author book_author : Str) : ℚ :=
  if query_author.isEmpty ∨ book_author.isEmpty then 0
  else
    let nq := normalize_text query_author
    let nb := normalize_text book_author
    if nq = nb then 1
    else if strContains nq nb ∨ strContains nb nq then 1
    else
      let qp := extract_initials_and_names query_author
      let bp := extract_initials_and_names book_author
      let lastCnt : ℕ :=
        if ¬qp.last_names.isEmpty ∧ ¬bp.last_names.isEmpty then
          (qp.last_names.filter (fun q => bp.last_names.any (· = q))).length
        else 0
      let firstCnt : ℕ :=
        if ¬qp.first_names.isEmpty ∨ ¬qp.initials.isEmpty then
          (qp.initials.filter
            (fun qi => bp.first_names.any (fun bf => begWith (qi.map pyLower) bf))).length
          + (qp.first_names.filter
            (fun qf => bp.initials.any (fun bi => begWith (bi.map pyLower) qf))).length
          + (qp.first_names.filter (fun qf => bp.first_names.any (· = qf))).length
        else 0
      let score : ℚ := (2 / 5 : ℚ) * lastCnt + (1 / 5 : ℚ) * firstCnt
      min (score / (3 / 5 : ℚ)) 1

/-- `int(re.sub(r'\D', '', s))`: keep the digits and parse; `none` when
no digit remains (Python raises `ValueError` there). -/
def extractNat (s : Str) : Option ℕ :=
  let ds := s.filter Char.isDigit
  if ds.isEmpty then none
  else some (ds.foldl (fun acc c => 10 * acc + (c.toNat - '0'.toNat)) 0)

def morePatterns : List Str :=
  [lit "plus", lit "plus de", lit "plus que", lit "more than", lit "more",
   lit "over", lit "above", lit "minimum"]

def lessPatterns : List Str :=
  [lit "moins", lit "moins de", lit "moins que", lit "less than", lit "less",
   lit "under", lit "below", lit "maximum", lit "max"]

def afterPatterns : List Str :=
  [lit "après", lit "apres", lit "after", lit "since", lit "from",
   lit "starting", lit "minimum", lit "plus récent", lit "plus recent"]

def beforePatterns : List Str :=
  [lit "avant", lit "before", lit "until", lit "prior", lit "maximum",
   lit "max", lit "plus ancien", lit "older"]

/-- `smart_keyword_match` from `utils/text_matching.py`.  The source's
local bindings `query_lower = query_value.lower().strip()`,
`book_lower = book_field.lower().strip()` and (in the numeric branches)
the reassigned `query_lower = query_value.lower()` are written out in
place below. -/
def smart_keyword_match (query_value book_field field_name : Str) : ℚ :=
  if query_value.isEmpty ∨ book_field.isEmpty then 0
  else if field_name = lit "auteur" ∨ strContains (lit "author") (field_name.map pyLower) then
    author_similarity_score query_value book_field
  else if field_name.map pyLower = lit "titre" ∨ field_name.map pyLower = lit "title" then
    if pyStrip (query_value.map pyLower) = pyStrip (book_field.map pyLower) then 1
    else if strContains (pyStrip (query_value.map pyLower)) (pyStrip (book_field.map pyLower)) ∨
        strContains (pyStrip (book_field.map pyLower)) (pyStrip (query_value.map pyLower)) then
      (4 / 5 : ℚ)
    else 0
  else if field_name.map pyLower = lit "pages" ∨ field_name.map pyLower = lit "page count" ∨
      field_name.map pyLower = lit "nombre de pages" then
    match extractNat query_value, extractNat book_field with
    | some qp, some bp =>
      if morePatterns.any (fun p => strContains p (query_value.map pyLower)) then
        if bp ≥ qp then 1 else 0
      else if lessPatterns.any (fun p => strContains p (query_value.map pyLower)) then
        if bp ≤ qp then 1 else 0
      else if max qp bp - min qp bp ≤ 10 then
        if qp = bp then 1 else (9 / 10 : ℚ)
      else 0
    | _, _ => 0
  else if field_name.map pyLower = lit "parution" ∨
      field_name.map pyLower = lit "publication year" ∨
      field_name.map pyLower = lit "année de parution" then
    match extractNat query_value, extractNat book_field with
    | some qy, some by_ =>
      if afterPatterns.any (fun p => strContains p (query_value.map pyLower)) then
        if by_ ≥ qy then 1 else 0
      else if beforePatterns.any (fun p => strContains p (query_value.map pyLower)) then
        if by_ ≤ qy then 1 else 0
      else if qy = by_ then 1 else 0
    | _, _ => 0
  else if field_name.map pyLower = lit "langue" ∨ field_name.map pyLower = lit "language" then
    if pyStrip (query_value.map pyLower) = pyStrip (book_field.map pyLower) then 1 else 0
  else if field_name.map pyLower = lit "editeur" ∨ field_name.map pyLower = lit "publisher" then
    if pyStrip (query_value.map pyLower) = pyStrip (book_field.map pyLower) then 1
    else if strContains (pyStrip (query_value.map pyLower)) (pyStrip (book_field.map pyLower)) ∨
        strContains (pyStrip (book_field.map pyLower)) (pyStrip (query_value.map pyLower)) then
      (4 / 5 : ℚ)
    else 0
  else if field_name.map pyLower = lit "categorie" ∨ field_name.map pyLower = lit "category" ∨
      field_name.map pyLower = lit "genre" then
    if wholeWordSearch (pyStrip (query_value.map pyLower)) (pyStrip (book_field.map pyLower)) then 1
    else 0
  else if field_name.map pyLower = lit "resume" ∨ field_name.map pyLower = lit "summary" ∨
      field_name.map pyLower = lit "description" then
    if wholeWordSearch (pyStrip query_value) (pyStrip (book_field.map pyLower)) then 1 else 0
  else 0

/-! ## Catalog records and keyword aggregation -/

/-- A JSON value stored in one subcategory slot of a record's parsed
classification: either a single tag string or a list of tag strings
(Python `str` / `list`; JSON `null` behaves exactly like the empty
string in every consumer and is subsumed by it). -/
inductive TagVal where
  | s (v : Str)
  | l (vs : List Str)
  deriving Repr, DecidableEq

/-- A record's classification, as decoded from its JSON string:
category name, then subcategory name, then tag value. -/
abbrev BookTaxo := List (Str × List (Str × TagVal))

/-- The `classification` field of a record: missing or empty string
(falsy), a nonempty string that `json.loads` rejects, or a decoded
dictionary. -/
inductive ClassifData where
  | absent
  | invalid
  | parsed (t : BookTaxo)
  deriving Repr, DecidableEq

/-- A catalog record (`book` dict).  Textual fields are optional:
`none` models a missing key; `some []` models an empty string (both are
falsy in the Python truthiness tests). -/
structure Book where
  id : Str
  titre : Option Str := none
  auteur : Option Str := none
  categorie : Option Str := none
  resume : Option Str := none
  pages : Option Str := none
  parution : Option Str := none
  langue : Option Str := none
  editeur : Option Str := none
  classification : ClassifData := ClassifData.absent
  deriving Repr, DecidableEq

/-- `book.get(key)` for the keyword fields.  Keys outside the record
schema yield `none`; this includes `classification`, whose (string)
content is never scored by `smart_keyword_match`. -/
def bookGet (b : Book) (k : Str) : Option Str :=
  if k = lit "titre" then b.titre
  else if k = lit "auteur" then b.auteur
  else if k = lit "categorie" then b.categorie
  else if k = lit "resume" then b.resume
  else if k = lit "pages" then b.pages
  else if k = lit "parution" then b.parution
  else if k = lit "langue" then b.langue
  else if k = lit "editeur" then b.editeur
  else none

/-- Python truthiness of an optional string field. -/
def isTruthyS : Option Str → Bool
  | none => false
  | some s => !s.isEmpty

/-- Accumulated score of the per-field variant loop: each variant adds
its score to the total and the loop breaks at the first positive score,
so the field contributes the score of its first positively-scoring
variant (or 0). -/
def firstPosScore (f : Str → ℚ) : List Str → ℚ
  | [] => 0
  | v :: vs => let s := f v; if s > 0 then s else firstPosScore f vs

/-- Contribution of the `categorie` field value itself (first loop of
the special `categorie` handling). -/
def categoriePartScore (b : Book) (vals : List Str) : ℚ :=
  match b.categorie with
  | some f =>
    if f.isEmpty then 0
    else firstPosScore (fun v => smart_keyword_match v f (lit "categorie")) vals
  | none => 0

/-- Contribution of the `resume` fallback (second loop of the special
`categorie` handling). -/
def resumePartScore (b : Book) (vals : List Str) : ℚ :=
  match b.resume with
  | some f =>
    if f.isEmpty then 0
    else firstPosScore (fun v => smart_keyword_match v f (lit "resume")) vals
  | none => 0

/-- Total contribution of a `categorie` keyword: the `categorie` field,
falling back to `resume` when the former scored 0. -/
def contribCategorie (b : Book) (vals : List Str) : ℚ :=
  let c1 := categoriePartScore b vals
  if c1 > 0 then c1 else resumePartScore b vals

/-- Is the item skipped by a `continue` before the tier check?
(Empty variant list; or, for a standard field, a falsy field value.) -/
def skipItem (b : Book) (item : Str × List Str) : Bool :=
  item.2.isEmpty ||
    (item.1 ≠ lit "categorie" && !(isTruthyS (bookGet b item.1)))

/-- Score contributed by one keyword item to the running total. -/
def contribItem (b : Book) (item : Str × List Str) : ℚ :=
  if skipItem b item then 0
  else if item.1 = lit "categorie" then contribCategorie b item.2
  else match bookGet b item.1 with
       | some f => firstPosScore (fun v => smart_keyword_match v f item.1) item.2
       | none => 0

/-- Loop state of `calculate_keyword_score`: the
`has_title_author_match` flag and the running `tot_match_score`. -/
structure KwAcc where
  hasTA : Bool
  tot : ℚ
  deriving Repr, DecidableEq

/-- One iteration of the keyword loop.  A skipped item (`continue`)
leaves the state untouched; otherwise the contribution is added and the
flag is raised when the *running total* is positive and the current key
is a title/author field (note: the source tests the running total, not
the current field's own score). -/
def calcStep (taF : List Str) (b : Book) (acc : KwAcc) (item : Str × List Str) : KwAcc :=
  if skipItem b item then acc
  else
    let tot' := acc.tot + contribItem b item
    { hasTA := acc.hasTA || (decide (tot' > 0) && taF.contains item.1),
      tot := tot' }

/-- `calculate_keyword_score` from `utils/text_matching.py`. -/
def calculate_keyword_score (keyword_items : List (Str × List Str)) (b : Book)
    (title_author_fields : List Str) : ℚ × ℚ :=
  let acc := keyword_items.foldl (calcStep title_author_fields b) ⟨false, 0⟩
  let score : ℚ :=
    if keyword_items.isEmpty then 0 else acc.tot / (keyword_items.length : ℚ)
  if acc.hasTA then (score, 0) else (0, score)

/-! ## Taxonomy merge, scoring and expansion -/

/-- A merged taxonomy: category, then subcategory, then the accumulated
set of tags.  Python keeps a `set` per slot; the embedding keeps a
duplicate-free list in insertion order, which has the same membership
and cardinality, the only properties consumed downstream. -/
abbrev Taxo := List (Str × List (Str × List Str))

/-- `set.add`. -/
def addTag (vals : List Str) (v : Str) : List Str :=
  if vals.contains v then vals else vals ++ [v]

/-- `set.update` with a list of values. -/
def addTags (vals : List Str) (vs : List Str) : List Str :=
  vs.foldl addTag vals

/-- `merged_taxonomy[main][sub].update/add values` guarded by the
`if values:` truthiness test and the `isinstance` dispatch. -/
def addTagVal (vals : List Str) (tv : TagVal) : List Str :=
  match tv with
  | TagVal.l vs => if vs.isEmpty then vals else addTags vals vs
  | TagVal.s v => if v.isEmpty then vals else addTag vals v

/-- Update the value stored under the first occurrence of key `k`; a
missing key leaves the association list unchanged (the source only
writes to slots that exist in the fixed skeleton). -/
def updAssoc {β : Type} (l : List (Str × β)) (k : Str) (f : β → β) : List (Str × β) :=
  match l with
  | [] => []
  | (k', v) :: rest =>
    if k' = k then (k', f v) :: rest else (k', v) :: updAssoc rest k f

/-- First-occurrence association lookup (Python `dict.get`). -/
def lookupAssoc {β : Type} (l : List (Str × β)) (k : Str) : Option β :=
  match l with
  | [] => none
  | (k', v) :: rest => if k' = k then some v else lookupAssoc rest k

/-- Merge one decoded classification into the accumulating taxonomy:
only category/subcategory slots already present are updated. -/
def mergeBookTax (m : Taxo) (bt : BookTaxo) : Taxo :=
  bt.foldl
    (fun acc mainPair =>
      if (acc.map Prod.fst).contains mainPair.1 then
        updAssoc acc mainPair.1
          (fun subs =>
            mainPair.2.foldl
              (fun sacc subPair =>
                if (sacc.map Prod.fst).contains subPair.1 then
                  updAssoc sacc subPair.1 (fun vals => addTagVal vals subPair.2)
                else sacc)
              subs)
      else acc)
    m

/-- The fixed reference skeleton initialized by
`merge_taxonomy_from_books` (all slots start empty). -/
def taxonomySkeleton : Taxo :=
  [(lit "Genre Littéraire", [(lit "Fiction", []), (lit "Non-fiction", [])]),
   (lit "Thèmes - Concepts Clés",
     [(lit "Société", []), (lit "Technologie", []),
      (lit "Relations humaines", []), (lit "Épopées et quêtes", []),
      (lit "Philosophie / Métaphysique", [])]),
   (lit "Type de Public", [(lit "Format", [])]),
   (lit "Structure Narrative",
     [(lit "Point de vue", []), (lit "Temporalité", []), (lit "Style", [])]),
   (lit "Personnages / Relations",
     [(lit "Type de protagoniste", []), (lit "Relations dominantes", [])])]

/-- `merge_taxonomy_from_books` from `utils/text_matching.py`: books
with a falsy or unparseable classification are skipped; the final
set-to-list conversion is the identity in this embedding. -/
def merge_taxonomy_from_books (books : List Book) : Taxo :=
  books.foldl
    (fun m b =>
      match b.classification with
      | ClassifData.parsed t => mergeBookTax m t
      | _ => m)
    taxonomySkeleton

/-- Number of distinct elements common to `book_values` and
`merged_values` (`len(set(a) & set(b))`). -/
def interCount (bookVals mergedVals : List Str) : ℕ :=
  (bookVals.dedup.filter (fun v => mergedVals.contains v)).length

/-- Score of one subcategory slot for a record. -/
def subSlotScore (bsubs : List (Str × TagVal)) (subPair : Str × List Str) : ℕ :=
  if subPair.2.isEmpty then 0
  else
    match lookupAssoc bsubs subPair.1 with
    | some (TagVal.l vs) => if vs.isEmpty then 0 else interCount vs subPair.2
    | some (TagVal.s v) =>
      if v.isEmpty then 0 else if subPair.2.contains v then 1 else 0
    | none => 0

/-- Score of one main-category slot for a record. -/
def mainSlotScore (bt : BookTaxo) (mainPair : Str × List (Str × List Str)) : ℕ :=
  match lookupAssoc bt mainPair.1 with
  | some bsubs =>
    if bsubs.isEmpty then 0 else (mainPair.2.map (subSlotScore bsubs)).sum
  | none => 0

/-- `calculate_taxonomy_score` from `utils/text_matching.py`.  Scores
are sums of intersection sizes, hence naturals. -/
def calculate_taxonomy_score (merged : Taxo) (b : Book) : ℕ :=
  match b.classification with
  | ClassifData.parsed bt =>
    if bt.isEmpty then 0 else (merged.map (mainSlotScore bt)).sum
  | _ => 0

/-- A record annotated with its transient score (`{**book, "score": s}`). -/
abbrev ScoredBook := Book × ℚ

/-- Ordering used by `sorted(key=lambda x: x.get("score", 0), reverse=True)`. -/
def scoreGe (p q : ScoredBook) : Prop := q.2 ≤ p.2

instance : DecidableRel scoreGe := fun p q => inferInstanceAs (Decidable (q.2 ≤ p.2))

instance : IsTotal ScoredBook scoreGe := ⟨fun p q => le_total q.2 p.2⟩

instance : IsTrans ScoredBook scoreGe := ⟨fun _ _ _ h h2 => le_trans h2 h⟩

/-- Python's `sorted(..., key=score, reverse=True)`: a stable descending
sort by score. -/
def stableSortDesc (l : List ScoredBook) : List ScoredBook :=
  l.insertionSort scoreGe

/-- Was the record's raw classification string truthy? -/
def classifTruthy (b : Book) : Bool :=
  match b.classification with
  | ClassifData.absent => false
  | _ => true

/-- `find_taxonomy_matches` from `utils/text_matching.py`: score every
record with a truthy classification string and an id outside the
exclusion set, keep positive scores, sort descending, and keep only the
scores reaching `max(1, 2 * max_possible_score / 3)` (float division,
embedded exactly in ℚ). -/
def find_taxonomy_matches (books : List Book) (merged : Taxo)
    (titleAuthorIds : List Str) : List ScoredBook :=
  let scored : List ScoredBook :=
    books.filterMap
      (fun b =>
        if !classifTruthy b then none
        else if titleAuthorIds.contains b.id then none
        else
          let s := calculate_taxonomy_score merged b
          if s > 0 then some (b, (s : ℚ)) else none)
  let maxScore : ℕ :=
    (books.filterMap
      (fun b =>
        if !classifTruthy b then none
        else if titleAuthorIds.contains b.id then none
        else some (calculate_taxonomy_score merged b))).foldr max 0
  let sortedMatches := stableSortDesc scored
  if maxScore > 0 then
    sortedMatches.filter (fun p => decide (p.2 ≥ max 1 ((2 * (maxScore : ℚ)) / 3)))
  else sortedMatches

/-- `filter_books_by_keywords` from `utils/text_matching.py`.  A record
with no truthy keyword field is skipped; a title/author score `≥ 1.0`
puts the record in the first tier, otherwise a zero title/author score
together with an other-keyword score `≥ 1.0` puts it in the second;
both tiers are stable-sorted descending by score. -/
def filter_books_by_keywords (books : List Book)
    (keyword_items : List (Str × List Str)) (title_author_fields : List Str) :
    List ScoredBook × List ScoredBook :=
  let hasKw := fun (b : Book) =>
    keyword_items.any (fun it => isTruthyS (bookGet b it.1))
  let ta := books.filterMap
    (fun b =>
      if !hasKw b then none
      else
        let p := calculate_keyword_score keyword_items b title_author_fields
        if p.1 ≥ 1 then some (b, p.1) else none)
  let oth := books.filterMap
    (fun b =>
      if !hasKw b then none
      else
        let p := calculate_keyword_score keyword_items b title_author_fields
        if p.1 ≥ 1 then none
        else if p.1 = 0 ∧ p.2 ≥ 1 then some (b, p.2) else none)
  (stableSortDesc ta, stableSortDesc oth)

/-! ## The four-branch ranking-strategy selector (`app.py`) -/

/-- The title/author field set configured in `filter_categories`. -/
def taFieldsDefault : List Str := [lit "titre", lit "auteur"]

/-- `any(kw_key in title_author_fields for kw_key, _ in keyword_items)`. -/
def hasTitleOrAuthor (keyword_items : List (Str × List Str)) : Bool :=
  keyword_items.any (fun it => taFieldsDefault.contains it.1)

/-- The four strategy states of `filter_categories`. -/
inductive Branch where
  | s1
  | s2
  | s3
  | s4
  deriving Repr, DecidableEq

/-- The `if/elif` chain of `filter_categories` (Phase 3), evaluated on
the two match lists and the `has_title_or_author` flag.  `none` models
the fall-through in which no branch assigns `merged_taxonomy` and the
subsequent normalization loop raises `UnboundLocalError`. -/
def selectBranch (ta oth : List ScoredBook) (hasTA : Bool) : Option Branch :=
  if ¬ta.isEmpty ∧ ((ta.head?.map Prod.snd).getD 0 ≥ 1) then some Branch.s1
  else if ¬ta.isEmpty then some Branch.s2
  else if hasTA = false ∧ ¬oth.isEmpty then some Branch.s3
  else if oth.isEmpty then some Branch.s4
  else none

/-- Phases 2-4 of `filter_categories` in `app.py`: keyword filtering,
strategy selection, and taxonomy expansion.  `gptTax` is the taxonomy
returned by the cached GPT classifier (an external collaborator);
branch 3 sets `merged_taxonomy = []`, embedded as the empty `Taxo`.
The expansion step runs only when the merged taxonomy is nonempty and
always excludes the ids of the title/author matches. -/
def filter_categories (books : List Book) (keyword_items : List (Str × List Str))
    (gptTax : Taxo) : Option (List ScoredBook) :=
  let fb := filter_books_by_keywords books keyword_items taFieldsDefault
  let ta := fb.1
  let oth := fb.2
  match selectBranch ta oth (hasTitleOrAuthor keyword_items) with
  | none => none
  | some br =>
    let merged : Taxo :=
      match br with
      | Branch.s1 => merge_taxonomy_from_books (ta.map Prod.fst)
      | Branch.s2 => gptTax
      | Branch.s3 => []
      | Branch.s4 => gptTax
    let seeds : List ScoredBook :=
      match br with
      | Branch.s1 => ta
      | Branch.s2 => []
      | Branch.s3 => oth
      | Branch.s4 => []
    let expansion : List ScoredBook :=
      if merged.length > 0 then
        find_taxonomy_matches books merged (ta.map (fun p => p.1.id))
      else []
    some (seeds ++ expansion)

/-! ## The response cache (`utils/gpt_cache.py`)

`_generate_key` hashes the normalized query together with the taxonomy
fingerprint; its outcome is embedded as an `Option CKey` (`none` models
the `except` path of a raised exception during key derivation).  The
`OrderedDict` is embedded as a list of entries whose front is the
oldest (least recently used) position; `time.time()` is an explicit
rational-valued parameter. -/

abbrev CKey := ℕ

/-- Cache state: entry list (front = least recently used), configured
capacity and TTL, and the hit/miss counters. -/
structure CacheState (α : Type) where
  entries : List (CKey × α × ℚ)
  maxSize : ℕ
  ttl : ℚ
  hits : ℕ
  misses : ℕ
  deriving Repr, DecidableEq

def cacheKeys {α : Type} (es : List (CKey × α × ℚ)) : List CKey :=
  es.map Prod.fst

/-- First-occurrence lookup (`key in self.cache` / `self.cache[key]`). -/
def lookupEntry {α : Type} (es : List (CKey × α × ℚ)) (k : CKey) :
    Option (α × ℚ) :=
  match es with
  | [] => none
  | (k', p) :: rest => if k' = k then some p else lookupEntry rest k

/-- Remove the (unique) entry with key `k` (`del self.cache[key]`). -/
def removeKey {α : Type} (es : List (CKey × α × ℚ)) (k : CKey) :
    List (CKey × α × ℚ) :=
  match es with
  | [] => []
  | (k', p) :: rest => if k' = k then rest else (k', p) :: removeKey rest k

/-- `self.cache[key] = (v, now)`: overwrite in place when the key is
present, otherwise append at the most-recent end. -/
def putKey {α : Type} (es : List (CKey × α × ℚ)) (k : CKey) (v : α) (now : ℚ) :
    List (CKey × α × ℚ) :=
  match es with
  | [] => [(k, v, now)]
  | (k', p) :: rest =>
    if k' = k then (k, v, now) :: rest else (k', p) :: putKey rest k v now

/-- `GPTCache.get`: a failed key derivation or a missing/expired entry
is a miss; an unexpired hit moves the entry to the most-recent end; an
expired entry is deleted. -/
def cacheGet {α : Type} (st : CacheState α) (k? : Option CKey) (now : ℚ) :
    Option α × CacheState α :=
  match k? with
  | none => (none, { st with misses := st.misses + 1 })
  | some k =>
    match lookupEntry st.entries k with
    | some (v, ts) =>
      if now - ts < st.ttl then
        (some v,
         { st with entries := removeKey st.entries k ++ [(k, v, ts)],
                   hits := st.hits + 1 })
      else
        (none,
         { st with entries := removeKey st.entries k,
                   misses := st.misses + 1 })
    | none => (none, { st with misses := st.misses + 1 })

/-- `GPTCache.set`: a failed key derivation returns `False` untouched;
at capacity the oldest entry is popped first (`popitem(last=False)`,
whose `KeyError` on an empty zero-capacity cache is caught and turned
into `False`); then the pair `(response, now)` is stored. -/
def cacheSet {α : Type} (st : CacheState α) (k? : Option CKey) (v : α) (now : ℚ) :
    Bool × CacheState α :=
  match k? with
  | none => (false, st)
  | some k =>
    if st.entries.length ≥ st.maxSize then
      match st.entries with
      | [] => (false, st)
      | _ :: rest => (true, { st with entries := putKey rest k v now })
    else (true, { st with entries := putKey st.entries k v now })

/-- A get/set call with an already-derived key outcome and timestamp. -/
inductive CacheOp (α : Type) where
  | get (k? : Option CKey) (now : ℚ)
  | set (k? : Option CKey) (v : α) (now : ℚ)

def applyOp {α : Type} (st : CacheState α) : CacheOp α → CacheState α
  | CacheOp.get k? now => (cacheGet st k? now).2
  | CacheOp.set k? v now => (cacheSet st k? v now).2

def applyOps {α : Type} (st : CacheState α) (ops : List (CacheOp α)) : CacheState α :=
  ops.foldl applyOp st

/-- Insert a list of (key, value, timestamp) triples via `set`. -/
def insertTriples {α : Type} (st : CacheState α) (ps : List (CKey × α × ℚ)) :
    CacheState α :=
  ps.foldl (fun s p => (cacheSet s (some p.1) p.2.1 p.2.2).2) st

/-- A fresh cache (`GPTCache(max_size, ttl_seconds)`). -/
def emptyCache (α : Type) (maxSize : ℕ) (ttl : ℚ) : CacheState α :=
  ⟨[], maxSize, ttl, 0, 0⟩

theorem author_score_nonneg (q b : Str) : 0 ≤ author_similarity_score q b := by
  simp only [author_similarity_score]
  split_ifs
  any_goals norm_num
  all_goals positivity

theorem author_score_le_one (q b : Str) : author_similarity_score q b ≤ 1 := by
  simp only [author_similarity_score]
  split_ifs
  all_goals norm_num

set_option maxHeartbeats 4000000 in
theorem smart_keyword_match_nonneg (q f k : Str) : 0 ≤ smart_keyword_match q f k := by
  delta smart_keyword_match
  split_ifs
  any_goals norm_num
  any_goals exact author_score_nonneg _ _
  all_goals (split <;> first | (split_ifs <;> norm_num) | norm_num)

set_option maxHeartbeats 4000000 in
theorem smart_keyword_match_le_one (q f k : Str) : smart_keyword_match q f k ≤ 1 := by
  delta smart_keyword_match
  split_ifs
  any_goals norm_num
  any_goals exact author_score_le_one _ _
  all_goals (split <;> first | (split_ifs <;> norm_num) | norm_num)

theorem firstPosScore_nonneg (f : Str → ℚ) (h : ∀ v, 0 ≤ f v) :
    ∀ vs, 0 ≤ firstPosScore f vs := by
  intro vs
  induction vs with
  | nil => simp [firstPosScore]
  | cons v vs ih =>
    simp only [firstPosScore]
    split
    · exact h v
    · exact ih

theorem firstPosScore_le_one (f : Str → ℚ) (h : ∀ v, f v ≤ 1) :
    ∀ vs, firstPosScore f vs ≤ 1 := by
  intro vs
  induction vs with
  | nil => simp [firstPosScore]
  | cons v vs ih =>
    simp only [firstPosScore]
    split
    · exact h v
    · exact ih

theorem categoriePartScore_nonneg (b : Book) (vals : List Str) :
    0 ≤ categoriePartScore b vals := by
  unfold categoriePartScore
  split
  · split
    · norm_num
    · exact firstPosScore_nonneg _ (fun v => smart_keyword_match_nonneg _ _ _) _
  · norm_num

theorem categoriePartScore_le_one (b : Book) (vals : List Str) :
    categoriePartScore b vals ≤ 1 := by
  unfold categoriePartScore
  split
  · split
    · norm_num
    · exact firstPosScore_le_one _ (fun v => smart_keyword_match_le_one _ _ _) _
  · norm_num

theorem resumePartScore_nonneg (b : Book) (vals : List Str) :
    0 ≤ resumePartScore b vals := by
  unfold resumePartScore
  split
  · split
    · norm_num
    · exact firstPosScore_nonneg _ (fun v => smart_keyword_match_nonneg _ _ _) _
  · norm_num

theorem resumePartScore_le_one (b : Book) (vals : List Str) :
    resumePartScore b vals ≤ 1 := by
  unfold resumePartScore
  split
  · split
    · norm_num
    · exact firstPosScore_le_one _ (fun v => smart_keyword_match_le_one _ _ _) _
  · norm_num

theorem contribCategorie_nonneg (b : Book) (vals : List Str) :
    0 ≤ contribCategorie b vals := by
  simp only [contribCategorie]
  split
  · exact categoriePartScore_nonneg b vals
  · exact resumePartScore_nonneg b vals

theorem contribCategorie_le_one (b : Book) (vals : List Str) :
    contribCategorie b vals ≤ 1 := by
  simp only [contribCategorie]
  split
  · exact categoriePartScore_le_one b vals
  · exact resumePartScore_le_one b vals

theorem contribItem_nonneg (b : Book) (it : Str × List Str) :
    0 ≤ contribItem b it := by
  unfold contribItem
  split
  · norm_num
  split
  · exact contribCategorie_nonneg _ _
  split
  · exact firstPosScore_nonneg _ (fun v => smart_keyword_match_nonneg _ _ _) _
  · norm_num

theorem contribItem_le_one (b : Book) (it : Str × List Str) :
    contribItem b it ≤ 1 := by
  unfold contribItem
  split
  · norm_num
  split
  · exact contribCategorie_le_one _ _
  split
  · exact firstPosScore_le_one _ (fun v => smart_keyword_match_le_one _ _ _) _
  · norm_num

theorem contribItem_eq_zero_of_skip (b : Book) (it : Str × List Str)
    (h : skipItem b it = true) : contribItem b it = 0 := by
  unfold contribItem
  rw [if_pos h]

theorem calcStep_tot (taF : List Str) (b : Book) (acc : KwAcc) (it : Str × List Str) :
    (calcStep taF b acc it).tot = acc.tot + contribItem b it := by
  unfold calcStep
  split
  · rw [contribItem_eq_zero_of_skip b it (by assumption), add_zero]
  · rfl

theorem calcStep_hasTA_mono (taF : List Str) (b : Book) (acc : KwAcc) (it : Str × List Str)
    (h : acc.hasTA = true) : (calcStep taF b acc it).hasTA = true := by
  unfold calcStep
  split
  · exact h
  · simp [h]

theorem foldl_hasTA_mono (taF : List Str) (b : Book) :
    ∀ (items : List (Str × List Str)) (acc : KwAcc), acc.hasTA = true →
      (items.foldl (calcStep taF b) acc).hasTA = true := by
  intro items
  induction items with
  | nil => intro acc h; simpa using h
  | cons it rest ih =>
    intro acc h
    rw [List.foldl_cons]
    exact ih _ (calcStep_hasTA_mono taF b acc it h)

theorem foldl_tot_eq (taF : List Str) (b : Book) :
    ∀ (items : List (Str × List Str)) (acc : KwAcc),
      (items.foldl (calcStep taF b) acc).tot =
        acc.tot + (items.map (contribItem b)).sum := by
  intro items
  induction items with
  | nil => intro acc; simp
  | cons it rest ih =>
    intro acc
    rw [List.foldl_cons, ih, calcStep_tot, List.map_cons, List.sum_cons, add_assoc]

theorem sum_contrib_nonneg (b : Book) :
    ∀ items : List (Str × List Str), 0 ≤ (items.map (contribItem b)).sum := by
  intro items
  induction items with
  | nil => simp
  | cons it rest ih =>
    rw [List.map_cons, List.sum_cons]
    exact add_nonneg (contribItem_nonneg b it) ih

theorem sum_contrib_le_length (b : Book) :
    ∀ items : List (Str × List Str),
      (items.map (contribItem b)).sum ≤ (items.length : ℚ) := by
  intro items
  induction items with
  | nil => simp
  | cons it rest ih =>
    rw [List.map_cons, List.sum_cons, List.length_cons]
    push_cast
    have := contribItem_le_one b it
    linarith

theorem calc_key (taF : List Str) (b : Book) :
    ∀ (items : List (Str × List Str)) (acc : KwAcc), 0 ≤ acc.tot →
      items.any (fun it => taF.contains it.1) = true →
      (items.foldl (calcStep taF b) acc).hasTA = false →
      (items.foldl (calcStep taF b) acc).tot < acc.tot + items.length := by
  intro items
  induction items with
  | nil => intro acc h0 hany; simp at hany
  | cons it rest ih =>
    intro acc h0 hany hfalse
    rw [List.foldl_cons] at hfalse ⊢
    have htot' : (calcStep taF b acc it).tot = acc.tot + contribItem b it :=
      calcStep_tot taF b acc it
    have h0' : 0 ≤ (calcStep taF b acc it).tot := by
      rw [htot']
      exact add_nonneg h0 (contribItem_nonneg b it)
    have hlen : ((it :: rest).length : ℚ) = (rest.length : ℚ) + 1 := by
      push_cast [List.length_cons]
      ring
    by_cases hr : rest.any (fun i => taF.contains i.1) = true
    · have hlt := ih (calcStep taF b acc it) h0' hr hfalse
      have hc1 := contribItem_le_one b it
      rw [hlen]
      rw [htot'] at hlt
      linarith
    · have hit : taF.contains it.1 = true := by
        simp only [List.any_cons, Bool.or_eq_true] at hany
        rcases hany with h | h
        · exact h
        · exact absurd h hr
      have hub := foldl_tot_eq taF b rest (calcStep taF b acc it)
      have hsum := sum_contrib_le_length b rest
      by_cases hskip : skipItem b it = true
      · have hc0 : contribItem b it = 0 := contribItem_eq_zero_of_skip b it hskip
        rw [hlen, hub, htot', hc0]
        linarith
      · have hfa : (calcStep taF b acc it).hasTA = false := by
          cases hh : (calcStep taF b acc it).hasTA
          · rfl
          · rw [foldl_hasTA_mono taF b rest _ hh] at hfalse
            exact absurd hfalse (by simp)
        have hshape : (calcStep taF b acc it).hasTA =
            (acc.hasTA || (decide ((acc.tot + contribItem b it) > 0) && taF.contains it.1)) := by
          unfold calcStep
          rw [if_neg (by simpa using hskip)]
        rw [hshape, hit, Bool.and_true, Bool.or_eq_false_iff] at hfa
        have hnotpos : ¬(acc.tot + contribItem b it > 0) := by
          have := hfa.2
          simpa using this
        have hzero : (calcStep taF b acc it).tot = 0 := by
          rw [htot']
          have := add_nonneg h0 (contribItem_nonneg b it)
          linarith [not_lt.mp hnotpos]
        rw [hlen, hub, hzero]
        linarith

theorem stableSortDesc_sorted (l : List ScoredBook) :
    List.Sorted scoreGe (stableSortDesc l) :=
  List.sorted_insertionSort scoreGe l

theorem mem_stableSortDesc (l : List ScoredBook) (p : ScoredBook) :
    p ∈ stableSortDesc l ↔ p ∈ l :=
  (List.perm_insertionSort scoreGe l).mem_iff

theorem mem_filter_ta (books : List Book) (items : List (Str × List Str))
    (taF : List Str) (p : ScoredBook)
    (hp : p ∈ (filter_books_by_keywords books items taF).1) :
    p.2 = (calculate_keyword_score items p.1 taF).1 ∧ p.2 ≥ 1 := by
  simp only [filter_books_by_keywords] at hp
  rw [mem_stableSortDesc] at hp
  obtain ⟨b, hb, hf⟩ := List.mem_filterMap.mp hp
  split_ifs at hf with h1 h2
  obtain rfl := Option.some.inj hf
  exact ⟨rfl, h2⟩

theorem mem_filter_oth (books : List Book) (items : List (Str × List Str))
    (taF : List Str) (p : ScoredBook)
    (hp : p ∈ (filter_books_by_keywords books items taF).2) :
    calculate_keyword_score items p.1 taF = (0, p.2) ∧ p.2 ≥ 1 := by
  simp only [filter_books_by_keywords] at hp
  rw [mem_stableSortDesc] at hp
  obtain ⟨b, hb, hf⟩ := List.mem_filterMap.mp hp
  split_ifs at hf with h1 h2 h3
  obtain rfl := Option.some.inj hf
  exact ⟨Prod.ext_iff.mpr ⟨h3.1, rfl⟩, h3.2⟩

theorem oth_empty_of_hasTA (books : List Book) (items : List (Str × List Str))
    (h : hasTitleOrAuthor items = true) :
    (filter_books_by_keywords books items taFieldsDefault).2 = [] := by
  have hne : items ≠ [] := by
    intro he
    rw [he] at h
    simp [hasTitleOrAuthor] at h
  by_contra hn
  obtain ⟨p, hp⟩ := List.exists_mem_of_ne_nil _ hn
  obtain ⟨hcalc, hge⟩ := mem_filter_oth books items taFieldsDefault p hp
  revert hcalc
  unfold calculate_keyword_score
  intro hcalc
  by_cases hM : (items.foldl (calcStep taFieldsDefault p.1) ⟨false, 0⟩).hasTA = true
  · rw [if_pos hM] at hcalc
    have : p.2 = 0 := (Prod.ext_iff.mp hcalc.symm).2
    rw [this] at hge
    linarith
  · have hM' : (items.foldl (calcStep taFieldsDefault p.1) ⟨false, 0⟩).hasTA = false := by
      simpa using hM
    rw [if_neg hM] at hcalc
    have hsc : p.2 = (if items.isEmpty then 0
        else (items.foldl (calcStep taFieldsDefault p.1) ⟨false, 0⟩).tot / (items.length : ℚ)) :=
      ((Prod.ext_iff.mp hcalc).2).symm
    have hie : ¬(items.isEmpty = true) := by simpa [List.isEmpty_iff] using hne
    rw [if_neg hie] at hsc
    have hkey := calc_key taFieldsDefault p.1 items ⟨false, 0⟩ le_rfl h hM'
    have hlenpos : (0 : ℚ) < (items.length : ℚ) := by
      have := List.length_pos.mpr hne
      exact_mod_cast this
    have hlt : (items.foldl (calcStep taFieldsDefault p.1) ⟨false, 0⟩).tot /
        (items.length : ℚ) < 1 := by
      rw [div_lt_one hlenpos]
      simpa using hkey
    rw [hsc] at hge
    linarith

theorem selectBranch_isSome (ta oth : List ScoredBook) (h : Bool)
    (hcase : h = true → oth = []) : (selectBranch ta oth h).isSome := by
  unfold selectBranch
  split_ifs with h1 h2 h3 h4 <;> try rfl
  exfalso
  have hne : oth ≠ [] := by simpa [List.isEmpty_iff] using h4
  cases hb : h
  · exact h3 ⟨hb, h4⟩
  · exact hne (hcase hb)

/-- Claim C1, counterexample: on the input combination with no
title/author match, a nonempty other-keyword match list, and a keyword
map containing a title/author field, the selector chain takes none of
the four branches — the claimed exhaustiveness over all combinations of
its three inputs fails (in the source, `merged_taxonomy` is then read
while unassigned). -/
theorem C1_counterexample :
    selectBranch [] [(⟨lit "b", none, none, none, none, none, none, none, none,
      ClassifData.absent⟩, 1)] true = none := by
  rfl

/-- Claim C1 (amended): for the match lists actually produced by the
keyword filter, the fall-through combination is unreachable — on every
catalog, keyword map and classifier taxonomy, exactly one branch of the
strategy chain fires and `filter_categories` returns a defined result
list. -/
theorem C1_selector_exhaustive (books : List Book)
    (items : List (Str × List Str)) (gptTax : Taxo) :
    (filter_categories books items gptTax).isSome := by
  have hsel : (selectBranch (filter_books_by_keywords books items taFieldsDefault).1
      (filter_books_by_keywords books items taFieldsDefault).2
      (hasTitleOrAuthor items)).isSome :=
    selectBranch_isSome _ _ _ (fun hh => oth_empty_of_hasTA books items hh)
  obtain ⟨br, hbr⟩ := Option.isSome_iff_exists.mp hsel
  simp only [filter_categories]
  rw [hbr]
  rfl

/-- Claim C4: every record in the title/author tier carries score `≥ 1`;
every record in the other-keyword tier was scored `(0, s)` with `s ≥ 1`;
hence a nonempty title/author list always drives the confident branch
(state 1) and the weak-signal branch (state 2) is unreachable. -/
theorem C4_tier_invariants (books : List Book) (items : List (Str × List Str)) :
    (∀ p ∈ (filter_books_by_keywords books items taFieldsDefault).1, p.2 ≥ 1) ∧
    (∀ p ∈ (filter_books_by_keywords books items taFieldsDefault).2,
        calculate_keyword_score items p.1 taFieldsDefault = (0, p.2) ∧ p.2 ≥ 1) ∧
    ((filter_books_by_keywords books items taFieldsDefault).1 ≠ [] →
        selectBranch (filter_books_by_keywords books items taFieldsDefault).1
          (filter_books_by_keywords books items taFieldsDefault).2
          (hasTitleOrAuthor items) = some Branch.s1) ∧
    (selectBranch (filter_books_by_keywords books items taFieldsDefault).1
        (filter_books_by_keywords books items taFieldsDefault).2
        (hasTitleOrAuthor items) ≠ some Branch.s2) := by
  have hbranch1 : (filter_books_by_keywords books items taFieldsDefault).1 ≠ [] →
      selectBranch (filter_books_by_keywords books items taFieldsDefault).1
        (filter_books_by_keywords books items taFieldsDefault).2
        (hasTitleOrAuthor items) = some Branch.s1 := by
    intro hne
    rcases hl : (filter_books_by_keywords books items taFieldsDefault).1 with _ | ⟨p, rest⟩
    · exact absurd hl hne
    · have hp : p ∈ (filter_books_by_keywords books items taFieldsDefault).1 := by
        rw [hl]
        exact List.mem_cons_self p rest
      have hge := (mem_filter_ta books items taFieldsDefault p hp).2
      have hcond : ¬(p :: rest).isEmpty = true ∧
          ((Option.map Prod.snd (p :: rest).head?).getD 0 ≥ (1 : ℚ)) := by
        constructor
        · simp
        · simpa using hge
      unfold selectBranch
      rw [if_pos hcond]
  refine ⟨fun p hp => (mem_filter_ta books items taFieldsDefault p hp).2,
    fun p hp => mem_filter_oth books items taFieldsDefault p hp,
    hbranch1, ?_⟩
  intro heq
  by_cases hta : (filter_books_by_keywords books items taFieldsDefault).1 = []
  · rw [hta] at heq
    unfold selectBranch at heq
    split_ifs at heq with g1 g2 g3 g4 <;>
      first
        | exact g1.1 rfl
        | exact g2 rfl
        | exact absurd (Option.some.inj heq) (by decide)
  · rw [hbranch1 hta] at heq
    exact absurd (Option.some.inj heq) (by decide)

theorem filter_ta_sorted (books : List Book) (items : List (Str × List Str))
    (taF : List Str) :
    List.Sorted scoreGe (filter_books_by_keywords books items taF).1 := by
  simp only [filter_books_by_keywords]
  exact stableSortDesc_sorted _

theorem filter_oth_sorted (books : List Book) (items : List (Str × List Str))
    (taF : List Str) :
    List.Sorted scoreGe (filter_books_by_keywords books items taF).2 := by
  simp only [filter_books_by_keywords]
  exact stableSortDesc_sorted _

theorem find_taxonomy_matches_sorted (books : List Book) (merged : Taxo)
    (excl : List Str) :
    List.Sorted scoreGe (find_taxonomy_matches books merged excl) := by
  simp only [find_taxonomy_matches]
  split
  · exact (stableSortDesc_sorted _).filter _
  · exact stableSortDesc_sorted _

theorem mem_find_taxonomy_matches_not_excl (books : List Book) (merged : Taxo)
    (excl : List Str) (p : ScoredBook)
    (hp : p ∈ find_taxonomy_matches books merged excl) :
    excl.contains p.1.id = false := by
  simp only [find_taxonomy_matches] at hp
  split at hp
  all_goals try replace hp := List.mem_of_mem_filter hp
  all_goals
    rw [mem_stableSortDesc] at hp
  all_goals
    obtain ⟨b, hb, hf⟩ := List.mem_filterMap.mp hp
  all_goals
    split_ifs at hf with h1 h2 h3
  all_goals
    obtain rfl := Option.some.inj hf
  all_goals
    simpa using h2

/-- A catalog record matched by title, carrying a two-tag classification. -/
def seedBookX : Book :=
  { id := lit "a", titre := some (lit "x"),
    classification := ClassifData.parsed
      [(lit "Genre Littéraire", [(lit "Fiction", TagVal.l [lit "t1", lit "t2"])])] }

/-- A second record sharing both classification tags with `seedBookX`
but matching no keyword. -/
def taxBookY : Book :=
  { id := lit "b",
    classification := ClassifData.parsed
      [(lit "Genre Littéraire", [(lit "Fiction", TagVal.l [lit "t1", lit "t2"])])] }

/-- Claim C2, counterexample: with one seed record (title score 1) and a
taxonomy-expansion record scoring 2, the final list of
`filter_categories` is the seed followed by the expansion — scores
`[1, 2]` — which is not sorted descending: no final sort is applied to
the combined list. -/
theorem C2_counterexample :
    filter_categories [seedBookX, taxBookY] [(lit "titre", [lit "x"])] [] =
      some [(seedBookX, 1), (taxBookY, 2)] ∧
    ¬ List.Sorted scoreGe [(seedBookX, (1 : ℚ)), (taxBookY, (2 : ℚ))] :=
  ⟨of_decide_eq_true (by with_unfolding_all rfl),
   of_decide_eq_true (by with_unfolding_all rfl)⟩

/-- Claim C2 (amended): in every branch the final list is the seed list
followed by the taxonomy-expansion list with no sort applied to the
concatenation; each of the two segments is individually sorted
descending by score, and the expansion excludes the ids of the
title/author matches (which are the seeds in state 1, and are excluded
even though discarded in state 2). -/
theorem C2_segments (books : List Book) (items : List (Str × List Str))
    (gptTax : Taxo) (out : List ScoredBook)
    (h : filter_categories books items gptTax = some out) :
    ∃ seeds expansion : List ScoredBook,
      out = seeds ++ expansion ∧
      List.Sorted scoreGe seeds ∧
      List.Sorted scoreGe expansion ∧
      (∀ p ∈ expansion,
        ((filter_books_by_keywords books items taFieldsDefault).1.map
            (fun q => q.1.id)).contains p.1.id = false) ∧
      (seeds = (filter_books_by_keywords books items taFieldsDefault).1 ∨
        seeds = (filter_books_by_keywords books items taFieldsDefault).2 ∨
        seeds = []) := by
  simp only [filter_categories] at h
  rcases hbr : selectBranch (filter_books_by_keywords books items taFieldsDefault).1
      (filter_books_by_keywords books items taFieldsDefault).2
      (hasTitleOrAuthor items) with _ | br
  · rw [hbr] at h
    exact Option.noConfusion h
  · rw [hbr] at h
    cases br with
    | s1 =>
      dsimp only at h
      obtain rfl := Option.some.inj h
      refine ⟨_, _, rfl, filter_ta_sorted books items taFieldsDefault, ?_, ?_, Or.inl rfl⟩
      · split
        · exact find_taxonomy_matches_sorted _ _ _
        · exact List.sorted_nil
      · intro p hp
        split at hp
        · exact mem_find_taxonomy_matches_not_excl _ _ _ p hp
        · exact absurd hp (List.not_mem_nil p)
    | s2 =>
      dsimp only at h
      obtain rfl := Option.some.inj h
      refine ⟨[], _, rfl, List.sorted_nil, ?_, ?_, Or.inr (Or.inr rfl)⟩
      · split
        · exact find_taxonomy_matches_sorted _ _ _
        · exact List.sorted_nil
      · intro p hp
        split at hp
        · exact mem_find_taxonomy_matches_not_excl _ _ _ p hp
        · exact absurd hp (List.not_mem_nil p)
    | s3 =>
      dsimp only at h
      obtain rfl := Option.some.inj h
      refine ⟨_, _, rfl, filter_oth_sorted books items taFieldsDefault, ?_, ?_,
        Or.inr (Or.inl rfl)⟩
      · split
        · exact find_taxonomy_matches_sorted _ _ _
        · exact List.sorted_nil
      · intro p hp
        split at hp
        · exact mem_find_taxonomy_matches_not_excl _ _ _ p hp
        · exact absurd hp (List.not_mem_nil p)
    | s4 =>
      dsimp only at h
      obtain rfl := Option.some.inj h
      refine ⟨[], _, rfl, List.sorted_nil, ?_, ?_, Or.inr (Or.inr rfl)⟩
      · split
        · exact find_taxonomy_matches_sorted _ _ _
        · exact List.sorted_nil
      · intro p hp
        split at hp
        · exact mem_find_taxonomy_matches_not_excl _ _ _ p hp
        · exact absurd hp (List.not_mem_nil p)

/-- Modelled from the spec (§4.2 KeywordAggregator), for comparison with
`calculate_keyword_score`: the claimed per-field contribution is the
maximum variant score for that field (the claimed short-circuit at a
variant scoring 1.0 does not change the maximum, since all scores are
at most 1), and the result is the sum of the per-field maxima divided
by the field count. -/
def spec_keyword_sum (items : List (Str × List Str)) (b : Book) : ℚ :=
  if items.isEmpty then 0
  else
    ((items.map (fun it =>
        match bookGet b it.1 with
        | some f =>
          if f.isEmpty then 0
          else (it.2.map (fun v => smart_keyword_match v f it.1)).foldr max 0
        | none => 0)).sum) / (items.length : ℚ)

/-- A record whose title field is matched by two variants: the first
scores 0.8 (substring), the second 1.0 (exact). -/
def titleBookPrince : Book := { id := lit "c", titre := some (lit "le petit prince") }

/-- Claim C3, counterexample: on a field whose first variant scores 0.8
and whose second scores 1.0, the aggregator returns 0.8 — the first
positive variant score, short-circuiting on any positive score — while
the claimed per-field maximum would give 1.0. -/
theorem C3_counterexample :
    (calculate_keyword_score [(lit "titre", [lit "le petit", lit "le petit prince"])]
        titleBookPrince taFieldsDefault).1 = 4 / 5 ∧
    spec_keyword_sum [(lit "titre", [lit "le petit", lit "le petit prince"])]
        titleBookPrince = 1 ∧
    (4 / 5 : ℚ) ≠ 1 :=
  ⟨of_decide_eq_true (by with_unfolding_all rfl),
   of_decide_eq_true (by with_unfolding_all rfl),
   of_decide_eq_true (by with_unfolding_all rfl)⟩

/-- Claim C3 (amended): the score returned by the keyword aggregator
(in whichever tier) equals the sum over fields of the first
positively-scoring variant's score (0 when none, with the `categorie`
to `resume` fallback), divided by the number of fields in the map. -/
theorem C3_first_positive_aggregation (items : List (Str × List Str)) (b : Book)
    (taF : List Str) :
    (calculate_keyword_score items b taF).1 + (calculate_keyword_score items b taF).2 =
      if items.isEmpty then 0
      else (items.map (contribItem b)).sum / (items.length : ℚ) := by
  have htot := foldl_tot_eq taF b items ⟨false, 0⟩
  simp only [calculate_keyword_score]
  split <;> simp [htot]

theorem smart_categorie_eq (q f : Str) (hq : q ≠ []) (hf : f ≠ []) :
    smart_keyword_match q f (lit "categorie") =
      (if wholeWordSearch (pyStrip (q.map pyLower)) (pyStrip (f.map pyLower))
        then 1 else 0) := by
  unfold smart_keyword_match
  rw [if_neg (by simp [List.isEmpty_iff, hq, hf])]
  rw [if_neg (by decide)]
  rw [if_neg (by decide)]
  rw [if_neg (by decide)]
  rw [if_neg (by decide)]
  rw [if_neg (by decide)]
  rw [if_neg (by decide)]
  rw [if_pos (by decide)]

theorem smart_resume_eq (q f : Str) (hq : q ≠ []) (hf : f ≠ []) :
    smart_keyword_match q f (lit "resume") =
      (if wholeWordSearch (pyStrip q) (pyStrip (f.map pyLower))
        then 1 else 0) := by
  unfold smart_keyword_match
  rw [if_neg (by simp [List.isEmpty_iff, hq, hf])]
  rw [if_neg (by decide)]
  rw [if_neg (by decide)]
  rw [if_neg (by decide)]
  rw [if_neg (by decide)]
  rw [if_neg (by decide)]
  rw [if_neg (by decide)]
  rw [if_neg (by decide)]
  rw [if_pos (by decide)]

theorem categorie_falls_back_to_resume (b : Book) (vals : List Str) (taF : List Str)
    (hc1 : categoriePartScore b vals = 0) (hvals : vals ≠ []) :
    calculate_keyword_score [(lit "categorie", vals)] b taF =
      (if resumePartScore b vals > 0 ∧ lit "categorie" ∈ taF
        then (resumePartScore b vals, 0) else (0, resumePartScore b vals)) := by
  have hskip : skipItem b (lit "categorie", vals) = false := by
    simp [skipItem, List.isEmpty_iff, hvals]
  have hcontrib : contribItem b (lit "categorie", vals) = resumePartScore b vals := by
    unfold contribItem
    rw [if_neg (by simp [hskip]), if_pos rfl]
    simp only [contribCategorie]
    rw [hc1, if_neg (by norm_num)]
  have hstep : calcStep taF b ⟨false, 0⟩ (lit "categorie", vals) =
      ⟨decide (resumePartScore b vals > 0) && taF.contains (lit "categorie"),
        resumePartScore b vals⟩ := by
    unfold calcStep
    rw [if_neg (by simp [hskip]), hcontrib]
    simp
  unfold calculate_keyword_score
  rw [List.foldl_cons, List.foldl_nil, hstep]
  by_cases hrp : resumePartScore b vals > 0
  · by_cases hct : lit "categorie" ∈ taF
    · simp [hrp, hct]
    · simp [hrp, hct]
  · simp [hrp]

/-- Claim C9 (amended): the category matcher scores 1 exactly when the
lowercased stripped query occurs as a whole word in the lowercased
stripped field; the summary matcher searches the RAW stripped query
(not lowercased) in the lowercased field; and when the `categorie`
field scores 0 (or is missing), the aggregator falls back to matching
the same variants against the `resume` field. -/
theorem C9_category_summary_matching :
    (∀ q f : Str, q ≠ [] → f ≠ [] →
      smart_keyword_match q f (lit "categorie") =
        (if wholeWordSearch (pyStrip (q.map pyLower)) (pyStrip (f.map pyLower))
          then 1 else 0)) ∧
    (∀ q f : Str, q ≠ [] → f ≠ [] →
      smart_keyword_match q f (lit "resume") =
        (if wholeWordSearch (pyStrip q) (pyStrip (f.map pyLower)) then 1 else 0)) ∧
    (∀ (b : Book) (vals taF : List Str), categoriePartScore b vals = 0 → vals ≠ [] →
      calculate_keyword_score [(lit "categorie", vals)] b taF =
        (if resumePartScore b vals > 0 ∧ lit "categorie" ∈ taF
          then (resumePartScore b vals, 0) else (0, resumePartScore b vals))) :=
  ⟨smart_categorie_eq, smart_resume_eq, categorie_falls_back_to_resume⟩

/-- Claim C9, counterexample: the summary matcher compares the raw
(non-lowercased) query against the lowercased field, so the query
`"Amour"`, which occurs verbatim as a whole word in the field
`"L Amour fou"`, scores 0 on the summary kind — the claimed
"1.0 exactly when the query value appears as a whole word in the field
value" fails (under the case-insensitive reading as well, third
conjunct). -/
theorem C9_counterexample :
    smart_keyword_match (lit "Amour") (lit "L Amour fou") (lit "resume") = 0 ∧
    wholeWordSearch (lit "Amour") (lit "L Amour fou") = true ∧
    wholeWordSearch ((lit "Amour").map pyLower) ((lit "L Amour fou").map pyLower) = true := by
  refine ⟨?_, by decide, by decide⟩
  decide

theorem C9_witness :
    smart_keyword_match (lit "amour") (lit "un amour fou") (lit "resume") = 1 := by
  have h := C9_category_summary_matching.2.1 (lit "amour") (lit "un amour fou")
    (by decide) (by decide)
  rw [h]
  decide

/-- Claim C10: author matching scores the abbreviated form
`"L.M. Montgomery"` against `"Lucy Maud Montgomery"` above 0.5, the
bare surname `"Tolkien"` against `"J.R.R. Tolkien"` above 0, and an
empty query author scores 0 against every field value. -/
theorem C10_author_matching :
    smart_keyword_match (lit "L.M. Montgomery") (lit "Lucy Maud Montgomery")
        (lit "auteur") > 1 / 2 ∧
    smart_keyword_match (lit "Tolkien") (lit "J.R.R. Tolkien") (lit "auteur") > 0 ∧
    ∀ x : Str, smart_keyword_match [] x (lit "auteur") = 0 := by
  refine ⟨?_, ?_, fun x => rfl⟩
  · exact of_decide_eq_true (by with_unfolding_all rfl)
  · exact of_decide_eq_true (by with_unfolding_all rfl)

/-! ## Cache lemmas -/

theorem lookupEntry_putKey_self {α : Type} (es : List (CKey × α × ℚ)) (k : CKey)
    (v : α) (now : ℚ) : lookupEntry (putKey es k v now) k = some (v, now) := by
  induction es with
  | nil => simp [putKey, lookupEntry]
  | cons e rest ih =>
    rcases e with ⟨ek, ep⟩
    by_cases hk : ek = k
    · simp [putKey, lookupEntry, hk]
    · simp [putKey, lookupEntry, hk, ih]

theorem mem_cacheKeys_putKey {α : Type} (es : List (CKey × α × ℚ)) (k a : CKey)
    (v : α) (now : ℚ) (ha : a ∈ cacheKeys (putKey es k v now)) :
    a ∈ cacheKeys es ∨ a = k := by
  induction es with
  | nil =>
    simp [putKey, cacheKeys] at ha
    exact Or.inr ha
  | cons e rest ih =>
    rcases e with ⟨ek, ep⟩
    by_cases hk : ek = k
    · simp only [putKey, if_pos hk, cacheKeys, List.map_cons] at ha
      rcases List.mem_cons.mp ha with h | h
      · exact Or.inr h
      · exact Or.inl (by simp [cacheKeys]; exact Or.inr (by simpa [cacheKeys] using h))
    · simp only [putKey, if_neg hk, cacheKeys, List.map_cons] at ha
      rcases List.mem_cons.mp ha with h | h
      · exact Or.inl (by simp [cacheKeys, h])
      · rcases ih (by simpa [cacheKeys] using h) with h2 | h2
        · exact Or.inl (by simp [cacheKeys]; exact Or.inr (by simpa [cacheKeys] using h2))
        · exact Or.inr h2

theorem nodup_cacheKeys_putKey {α : Type} (es : List (CKey × α × ℚ)) (k : CKey)
    (v : α) (now : ℚ) (hnd : (cacheKeys es).Nodup) :
    (cacheKeys (putKey es k v now)).Nodup := by
  induction es with
  | nil => simp [putKey, cacheKeys]
  | cons e rest ih =>
    rcases e with ⟨ek, ep⟩
    simp only [cacheKeys, List.map_cons, List.nodup_cons] at hnd
    by_cases hk : ek = k
    · simp only [putKey, if_pos hk, cacheKeys, List.map_cons, List.nodup_cons]
      exact ⟨by rw [← hk]; exact hnd.1, hnd.2⟩
    · simp only [putKey, if_neg hk, cacheKeys, List.map_cons, List.nodup_cons]
      refine ⟨?_, ih hnd.2⟩
      intro hmem
      rcases mem_cacheKeys_putKey rest k ek v now (by simpa [cacheKeys] using hmem) with h | h
      · exact hnd.1 (by simpa [cacheKeys] using h)
      · exact hk h

theorem not_mem_keys_removeKey {α : Type} (es : List (CKey × α × ℚ)) (k : CKey)
    (hnd : (cacheKeys es).Nodup) : k ∉ cacheKeys (removeKey es k) := by
  induction es with
  | nil => simp [removeKey, cacheKeys]
  | cons e rest ih =>
    rcases e with ⟨ek, ep⟩
    simp only [cacheKeys, List.map_cons, List.nodup_cons] at hnd
    by_cases hk : ek = k
    · simp only [removeKey, if_pos hk]
      intro hmem
      exact hnd.1 (by rw [hk]; exact (by simpa [cacheKeys] using hmem))
    · simp only [removeKey, if_neg hk, cacheKeys, List.map_cons]
      intro hmem
      rcases List.mem_cons.mp hmem with h | h
      · exact hk h.symm
      · exact ih hnd.2 (by simpa [cacheKeys] using h)

theorem length_removeKey_le {α : Type} (es : List (CKey × α × ℚ)) (k : CKey) :
    (removeKey es k).length ≤ es.length := by
  induction es with
  | nil => simp [removeKey]
  | cons e rest ih =>
    rcases e with ⟨ek, ep⟩
    by_cases hk : ek = k
    · simp only [removeKey, if_pos hk, List.length_cons]
      omega
    · simp only [removeKey, if_neg hk, List.length_cons]
      omega

theorem length_removeKey_of_lookup {α : Type} (es : List (CKey × α × ℚ)) (k : CKey)
    (p : α × ℚ) (h : lookupEntry es k = some p) :
    es.length = (removeKey es k).length + 1 := by
  induction es with
  | nil => simp [lookupEntry] at h
  | cons e rest ih =>
    rcases e with ⟨ek, ep⟩
    by_cases hk : ek = k
    · simp [removeKey, hk]
    · simp only [lookupEntry, if_neg hk] at h
      simp only [removeKey, if_neg hk, List.length_cons]
      rw [ih h]

theorem length_putKey_le {α : Type} (es : List (CKey × α × ℚ)) (k : CKey)
    (v : α) (now : ℚ) : (putKey es k v now).length ≤ es.length + 1 := by
  induction es with
  | nil => simp [putKey]
  | cons e rest ih =>
    rcases e with ⟨ek, ep⟩
    by_cases hk : ek = k
    · simp [putKey, hk]
    · simp only [putKey, if_neg hk, List.length_cons]
      omega

theorem cacheSet_some_entries {α : Type} (st : CacheState α) (k : CKey) (v : α)
    (now : ℚ) (hmax : 1 ≤ st.maxSize) (hnd : (cacheKeys st.entries).Nodup) :
    ∃ base : List (CKey × α × ℚ),
      (cacheSet st (some k) v now).2 = { st with entries := putKey base k v now } ∧
      (cacheKeys base).Nodup := by
  simp only [cacheSet]
  split_ifs with hge
  · rcases hes : st.entries with _ | ⟨e, rest⟩
    · rw [hes] at hge
      simp at hge
      omega
    · refine ⟨rest, by dsimp only, ?_⟩
      rw [hes] at hnd
      rcases e with ⟨ek, ep⟩
      simp only [cacheKeys, List.map_cons, List.nodup_cons] at hnd
      exact hnd.2
  · exact ⟨st.entries, rfl, hnd⟩

theorem cacheGet_found {α : Type} (st : CacheState α) (k : CKey) (v : α)
    (ts now : ℚ) (hl : lookupEntry st.entries k = some (v, ts)) :
    cacheGet st (some k) now =
      if now - ts < st.ttl then
        (some v, { st with entries := removeKey st.entries k ++ [(k, v, ts)],
                           hits := st.hits + 1 })
      else
        (none, { st with entries := removeKey st.entries k,
                         misses := st.misses + 1 }) := by
  unfold cacheGet
  dsimp only
  rw [hl]

/-- Claim C5: after a successful `set(q, t, v)` at time `now`, a `get`
of the same key before the TTL elapses returns `v`; once the age
reaches the TTL, the `get` is a miss and the entry is deleted from the
cache.  (A positive capacity is assumed: with `max_size = 0` the
source's `popitem` on the empty dict raises and `set` stores nothing.) -/
theorem C5_cache_roundtrip (α : Type) (st : CacheState α) (k : CKey) (v : α)
    (now now2 : ℚ) (hmax : 1 ≤ st.maxSize)
    (hnd : (cacheKeys st.entries).Nodup) :
    (now2 - now < st.ttl →
      (cacheGet (cacheSet st (some k) v now).2 (some k) now2).1 = some v) ∧
    (st.ttl ≤ now2 - now →
      (cacheGet (cacheSet st (some k) v now).2 (some k) now2).1 = none ∧
      k ∉ cacheKeys (cacheGet (cacheSet st (some k) v now).2 (some k) now2).2.entries) := by
  obtain ⟨base, hst1, hbnd⟩ := cacheSet_some_entries st k v now hmax hnd
  have hlook : lookupEntry ({ st with entries := putKey base k v now } :
      CacheState α).entries k = some (v, now) := lookupEntry_putKey_self base k v now
  rw [hst1, cacheGet_found _ _ _ _ _ hlook]
  constructor
  · intro hlt
    rw [if_pos (show now2 - now <
        ({ st with entries := putKey base k v now } : CacheState α).ttl from hlt)]
  · intro hge
    rw [if_neg (show ¬(now2 - now <
        ({ st with entries := putKey base k v now } : CacheState α).ttl)
        from not_lt.mpr hge)]
    exact ⟨rfl, not_mem_keys_removeKey _ k (nodup_cacheKeys_putKey base k v now hbnd)⟩

theorem C5_witness :
    (cacheGet (cacheSet (emptyCache ℕ 2 10) (some 5) 7 0).2 (some 5) 3).1 = some 7 ∧
    (cacheGet (cacheSet (emptyCache ℕ 2 10) (some 5) 7 0).2 (some 5) 11).1 = none := by
  have h1 := C5_cache_roundtrip ℕ (emptyCache ℕ 2 10) 5 7 0 3
    (by norm_num [emptyCache]) (by simp [emptyCache, cacheKeys])
  have h2 := C5_cache_roundtrip ℕ (emptyCache ℕ 2 10) 5 7 0 11
    (by norm_num [emptyCache]) (by simp [emptyCache, cacheKeys])
  exact ⟨h1.1 (by norm_num [emptyCache]), (h2.2 (by norm_num [emptyCache])).1⟩

/-- Claim C7: a failed cache-key derivation (the `except` path of
`_generate_key`) makes `get` return a miss and bump the miss counter
with the entry map untouched, and makes `set` return `False` with the
state entirely unchanged; neither call propagates the exception. -/
theorem C7_cache_error_degrades (α : Type) (st : CacheState α) (v : α) (now : ℚ) :
    cacheGet st none now = (none, { st with misses := st.misses + 1 }) ∧
    cacheSet st none v now = (false, st) :=
  ⟨rfl, rfl⟩

theorem applyOp_maxSize {α : Type} (st : CacheState α) (op : CacheOp α) :
    (applyOp st op).maxSize = st.maxSize := by
  cases op with
  | get k? now =>
    rcases k? with _ | k
    · rfl
    · unfold applyOp cacheGet
      dsimp only
      rcases hl : lookupEntry st.entries k with _ | ⟨v, ts⟩
      · rfl
      · dsimp only
        split <;> rfl
  | set k? v now =>
    rcases k? with _ | k
    · rfl
    · unfold applyOp cacheSet
      dsimp only
      split
      · rcases st.entries with _ | ⟨e, rest⟩ <;> rfl
      · rfl

theorem applyOp_length_le {α : Type} (st : CacheState α) (op : CacheOp α)
    (h : st.entries.length ≤ st.maxSize) :
    (applyOp st op).entries.length ≤ st.maxSize := by
  cases op with
  | get k? now =>
    rcases k? with _ | k
    · exact h
    · unfold applyOp cacheGet
      dsimp only
      rcases hl : lookupEntry st.entries k with _ | ⟨v, ts⟩
      · exact h
      · dsimp only
        split
        · dsimp only
          rw [List.length_append, List.length_singleton]
          have := length_removeKey_of_lookup st.entries k (v, ts) hl
          omega
        · dsimp only
          have := length_removeKey_le st.entries k
          omega
  | set k? v now =>
    rcases k? with _ | k
    · exact h
    · show (cacheSet st (some k) v now).2.entries.length ≤ st.maxSize
      simp only [cacheSet]
      split_ifs with hge
      · rcases hes : st.entries with _ | ⟨e, rest⟩
        · exact h
        · dsimp only
          have h2 := length_putKey_le rest k v now
          have h3 : st.entries.length = rest.length + 1 := by rw [hes]; rfl
          omega
      · dsimp only
        have h2 := length_putKey_le st.entries k v now
        have h4 : ¬st.maxSize ≤ st.entries.length := by
          simpa [ge_iff_le] using hge
        omega

theorem applyOps_length_le {α : Type} (ops : List (CacheOp α)) :
    ∀ st : CacheState α, st.entries.length ≤ st.maxSize →
      (applyOps st ops).entries.length ≤ st.maxSize ∧
      (applyOps st ops).maxSize = st.maxSize := by
  induction ops with
  | nil => intro st h; exact ⟨h, rfl⟩
  | cons op rest ih =>
    intro st h
    have h1 := applyOp_length_le st op h
    have h2 := applyOp_maxSize st op
    have h3 := ih (applyOp st op) (by rw [h2]; exact h1)
    rw [h2] at h3
    unfold applyOps at h3 ⊢
    rw [List.foldl_cons]
    exact h3

/-- The key-list effect of one at-capacity-aware insertion: evict the
oldest key when full, then append the new key. -/
def slideWindow (m : ℕ) (acc : List CKey) (k : CKey) : List CKey :=
  if m ≤ acc.length then acc.drop 1 ++ [k] else acc ++ [k]

theorem cacheKeys_length {α : Type} (es : List (CKey × α × ℚ)) :
    (cacheKeys es).length = es.length := by
  simp [cacheKeys]

theorem cacheKeys_putKey_not_mem {α : Type} (es : List (CKey × α × ℚ)) (k : CKey)
    (v : α) (now : ℚ) (hk : k ∉ cacheKeys es) :
    cacheKeys (putKey es k v now) = cacheKeys es ++ [k] := by
  induction es with
  | nil => simp [putKey, cacheKeys]
  | cons e rest ih =>
    rcases e with ⟨ek, ep⟩
    simp only [cacheKeys, List.map_cons, List.mem_cons] at hk
    push_neg at hk
    have hne : ¬(ek = k) := fun he => hk.1 he.symm
    simp only [putKey, if_neg hne, cacheKeys, List.map_cons, List.cons_append,
      List.cons.injEq, true_and]
    simpa [cacheKeys] using ih hk.2

theorem cacheSet_keys_slide {α : Type} (st : CacheState α) (k : CKey) (v : α)
    (t : ℚ) (hmax : 1 ≤ st.maxSize) (hlen : st.entries.length ≤ st.maxSize)
    (hk : k ∉ cacheKeys st.entries) :
    cacheKeys (cacheSet st (some k) v t).2.entries =
      slideWindow st.maxSize (cacheKeys st.entries) k := by
  simp only [cacheSet, slideWindow]
  split_ifs with hge hsl hsl
  · rcases hes : st.entries with _ | ⟨e, rest⟩
    · rw [hes] at hge
      simp at hge
      omega
    · dsimp only
      rcases e with ⟨ek, ep⟩
      rw [hes] at hk
      simp only [cacheKeys, List.map_cons, List.mem_cons] at hk
      push_neg at hk
      rw [cacheKeys_putKey_not_mem rest k v t (by simpa [cacheKeys] using hk.2)]
      simp [cacheKeys]
  · exfalso
    have h5 := cacheKeys_length st.entries
    rw [ge_iff_le] at hge
    omega
  · exfalso
    have h5 := cacheKeys_length st.entries
    have h4 : ¬st.maxSize ≤ st.entries.length := by
      simpa [ge_iff_le] using hge
    omega
  · dsimp only
    exact cacheKeys_putKey_not_mem st.entries k v t hk

theorem foldl_slideWindow (m : ℕ) (hm : 1 ≤ m) :
    ∀ (ks : List CKey) (acc : List CKey), acc.length ≤ m →
      ks.foldl (slideWindow m) acc = (acc ++ ks).drop (acc.length + ks.length - m) := by
  intro ks
  induction ks with
  | nil =>
    intro acc hacc
    simp only [List.foldl_nil, List.length_nil, Nat.add_zero, List.append_nil]
    rw [Nat.sub_eq_zero_of_le hacc, List.drop_zero]
  | cons k rest ih =>
    intro acc hacc
    rw [List.foldl_cons]
    by_cases hfull : m ≤ acc.length
    · have heq : acc.length = m := le_antisymm hacc hfull
      rcases acc with _ | ⟨a, acc0⟩
      · exfalso
        simp at heq
        omega
      · have hlc : acc0.length + 1 = m := by simpa using heq
        have hsl : slideWindow m (a :: acc0) k = acc0 ++ [k] := by
          simp only [slideWindow, if_pos hfull, List.drop_succ_cons, List.drop_zero]
        rw [hsl, ih (acc0 ++ [k]) (by simp; omega)]
        simp only [List.length_append, List.length_singleton, List.length_cons,
          List.length_nil, List.nil_append, List.append_assoc, List.singleton_append,
          List.cons_append]
        rw [show acc0.length + (0 + 1) + rest.length - m = rest.length by omega]
        rw [show acc0.length + 1 + (rest.length + 1) - m = rest.length + 1 by omega]
        rw [List.drop_succ_cons]
    · have hsl : slideWindow m acc k = acc ++ [k] := by
        simp only [slideWindow, if_neg hfull]
      rw [hsl, ih (acc ++ [k]) (by simp; omega)]
      simp only [List.length_append, List.length_singleton, List.length_cons,
        List.length_nil, List.nil_append, List.append_assoc, List.singleton_append]
      congr 1
      omega

theorem insertTriples_keys_general {α : Type} (ps : List (CKey × α × ℚ)) :
    ∀ st : CacheState α, 1 ≤ st.maxSize → st.entries.length ≤ st.maxSize →
      (cacheKeys st.entries ++ cacheKeys ps).Nodup →
      cacheKeys (insertTriples st ps).entries =
        (cacheKeys ps).foldl (slideWindow st.maxSize) (cacheKeys st.entries) ∧
      (insertTriples st ps).entries.length ≤ st.maxSize ∧
      (insertTriples st ps).maxSize = st.maxSize := by
  induction ps with
  | nil =>
    intro st hm hlen hnd
    exact ⟨rfl, hlen, rfl⟩
  | cons p rest ih =>
    intro st hm hlen hnd
    simp only [cacheKeys, List.map_cons] at hnd
    rw [List.nodup_append] at hnd
    have hk : p.1 ∉ cacheKeys st.entries := by
      intro hmem
      exact hnd.2.2 (by simpa [cacheKeys] using hmem) (List.mem_cons_self _ _)
    have hkeys1 := cacheSet_keys_slide st p.1 p.2.1 p.2.2 hm hlen hk
    have hmax1 := applyOp_maxSize st (CacheOp.set (some p.1) p.2.1 p.2.2)
    have hlen1 := applyOp_length_le st (CacheOp.set (some p.1) p.2.1 p.2.2) hlen
    have hsub : List.Sublist (slideWindow st.maxSize (cacheKeys st.entries) p.1)
        (cacheKeys st.entries ++ [p.1]) := by
      unfold slideWindow
      split_ifs
      · exact (List.drop_sublist 1 _).append_right _
      · exact List.Sublist.refl _
    have hnd1 : (cacheKeys (cacheSet st (some p.1) p.2.1 p.2.2).2.entries ++
        cacheKeys rest).Nodup := by
      rw [hkeys1]
      refine List.Nodup.sublist (List.Sublist.append_right hsub _) ?_
      rw [List.append_assoc, List.singleton_append]
      exact List.nodup_append.mpr ⟨hnd.1, hnd.2.1, hnd.2.2⟩
    have hstep := ih ((cacheSet st (some p.1) p.2.1 p.2.2).2)
      (by rw [show ((cacheSet st (some p.1) p.2.1 p.2.2).2).maxSize = st.maxSize
            from hmax1]; exact hm)
      (by rw [show ((cacheSet st (some p.1) p.2.1 p.2.2).2).maxSize = st.maxSize
            from hmax1]; exact hlen1)
      hnd1
    have hins : insertTriples st (p :: rest) =
        insertTriples ((cacheSet st (some p.1) p.2.1 p.2.2).2) rest := by
      unfold insertTriples
      rw [List.foldl_cons]
    rw [hins]
    rw [show ((cacheSet st (some p.1) p.2.1 p.2.2).2).maxSize = st.maxSize
      from hmax1] at hstep
    refine ⟨?_, hstep.2.1, hstep.2.2⟩
    rw [hstep.1, hkeys1]
    simp only [cacheKeys, List.map_cons, List.foldl_cons]

/-- Claim C6: over any sequence of get/set operations the entry count
never exceeds the configured capacity; and inserting `m + j` distinct
keys into a fresh cache of capacity `m ≥ 1` (with no intervening
accesses) leaves exactly the last `m` keys, the `j` oldest
(least-recently-used) keys having been evicted. -/
theorem C6_capacity_and_eviction (α : Type) :
    (∀ (ops : List (CacheOp α)) (st : CacheState α),
        st.entries.length ≤ st.maxSize →
        (applyOps st ops).entries.length ≤ st.maxSize) ∧
    (∀ (m j : ℕ) (ttl : ℚ) (ps : List (CKey × α × ℚ)), 1 ≤ m →
        (cacheKeys ps).Nodup → ps.length = m + j →
        cacheKeys (insertTriples (emptyCache α m ttl) ps).entries =
          (cacheKeys ps).drop j ∧
        (insertTriples (emptyCache α m ttl) ps).entries.length = m ∧
        ∀ k ∈ (cacheKeys ps).take j,
          k ∉ cacheKeys (insertTriples (emptyCache α m ttl) ps).entries) := by
  constructor
  · intro ops st h
    exact (applyOps_length_le ops st h).1
  · intro m j ttl ps hm hnd hlen
    have hgen := insertTriples_keys_general ps (emptyCache α m ttl) hm
      (by simp [emptyCache]) (by simpa [emptyCache, cacheKeys] using hnd)
    have hplen : (cacheKeys ps).length = ps.length := cacheKeys_length ps
    have hkeys : cacheKeys (insertTriples (emptyCache α m ttl) ps).entries =
        (cacheKeys ps).drop j := by
      rw [hgen.1]
      have hfold := foldl_slideWindow m hm (cacheKeys ps) [] (by simp)
      have : (emptyCache α m ttl).maxSize = m := rfl
      rw [show cacheKeys (emptyCache α m ttl).entries = [] from rfl, this, hfold]
      simp only [List.nil_append, List.length_nil, Nat.zero_add]
      rw [show (cacheKeys ps).length - m = j by omega]
    refine ⟨hkeys, ?_, ?_⟩
    · have h2 := congrArg List.length hkeys
      rw [cacheKeys_length, List.length_drop] at h2
      omega
    · intro k hk hmem
      rw [hkeys] at hmem
      have h2 := hnd
      rw [← List.take_append_drop j (cacheKeys ps), List.nodup_append] at h2
      exact h2.2.2 hk hmem

theorem C6_witness :
    cacheKeys (insertTriples (emptyCache ℕ 1 5) [(0, 0, 0), (1, 0, 0)]).entries = [1] ∧
    (insertTriples (emptyCache ℕ 1 5) [(0, 0, 0), (1, 0, 0)]).entries.length = 1 ∧
    (0 : CKey) ∉ cacheKeys (insertTriples (emptyCache ℕ 1 5) [(0, 0, 0), (1, 0, 0)]).entries := by
  have h := (C6_capacity_and_eviction ℕ).2 1 1 5 [(0, 0, 0), (1, 0, 0)]
    (by norm_num) (by decide) (by decide)
  refine ⟨by rw [h.1]; rfl, h.2.1, ?_⟩
  exact h.2.2 0 (by decide)

/-! ## Taxonomy tag accounting for the merge/score dominance property -/

/-- All tag strings held by one slot value. -/
def tagsOfTagVal : TagVal → List Str
  | TagVal.s v => [v]
  | TagVal.l vs => vs

/-- All tag strings of a decoded classification. -/
def tagsOfBookTax (t : BookTaxo) : List Str :=
  (t.map (fun mp => (mp.2.map (fun sp => tagsOfTagVal sp.2)).flatten)).flatten

/-- All tag strings of a record (empty for an absent or unparseable
classification). -/
def tagsOfBook (b : Book) : List Str :=
  match b.classification with
  | ClassifData.parsed t => tagsOfBookTax t
  | _ => []

/-- The union (with multiplicity) of the tags of a set of records. -/
def allTagsOf (S : List Book) : List Str := (S.map tagsOfBook).flatten

/-- All values of the subcategory slots of one category. -/
def subsVals (subs : List (Str × List Str)) : List Str :=
  (subs.map (fun p => p.2)).flatten

/-- All tag values stored anywhere in a merged taxonomy. -/
def taxoVals (m : Taxo) : List Str :=
  (m.map (fun p => subsVals p.2)).flatten

theorem mem_addTag (vals : List Str) (x v : Str) (h : v ∈ addTag vals x) :
    v ∈ vals ∨ v = x := by
  unfold addTag at h
  split at h
  · exact Or.inl h
  · rcases List.mem_append.mp h with h2 | h2
    · exact Or.inl h2
    · exact Or.inr (List.mem_singleton.mp h2)

theorem mem_addTags (xs : List Str) :
    ∀ (vals : List Str) (v : Str), v ∈ addTags vals xs → v ∈ vals ∨ v ∈ xs := by
  induction xs with
  | nil => intro vals v h; exact Or.inl h
  | cons x rest ih =>
    intro vals v h
    unfold addTags at h ih
    rw [List.foldl_cons] at h
    rcases ih (addTag vals x) v h with h2 | h2
    · rcases mem_addTag vals x v h2 with h3 | h3
      · exact Or.inl h3
      · exact Or.inr (by rw [h3]; exact List.mem_cons_self _ _)
    · exact Or.inr (List.mem_cons_of_mem _ h2)

theorem mem_addTagVal (vals : List Str) (tv : TagVal) (v : Str)
    (h : v ∈ addTagVal vals tv) : v ∈ vals ∨ v ∈ tagsOfTagVal tv := by
  cases tv with
  | l vs =>
    simp only [addTagVal] at h
    split at h
    · exact Or.inl h
    · exact mem_addTags vs vals v h
  | s x =>
    simp only [addTagVal] at h
    split at h
    · exact Or.inl h
    · rcases mem_addTag vals x v h with h2 | h2
      · exact Or.inl h2
      · exact Or.inr (by rw [h2]; exact List.mem_singleton.mpr rfl)

theorem mem_updAssoc_vals {β : Type} (proj : β → List Str) (P : Str → Prop)
    (k : Str) (f : β → β)
    (hf : ∀ (b : β) (v : Str), v ∈ proj (f b) → v ∈ proj b ∨ P v) :
    ∀ (l : List (Str × β)) (v : Str),
      v ∈ ((updAssoc l k f).map (fun p => proj p.2)).flatten →
      v ∈ (l.map (fun p => proj p.2)).flatten ∨ P v := by
  intro l
  induction l with
  | nil => intro v h; exact Or.inl h
  | cons e rest ih =>
    rcases e with ⟨ek, ev⟩
    intro v h
    unfold updAssoc at h
    split at h
    · simp only [List.map_cons, List.flatten_cons] at h ⊢
      rcases List.mem_append.mp h with h2 | h2
      · rcases hf ev v h2 with h3 | h3
        · exact Or.inl (List.mem_append.mpr (Or.inl h3))
        · exact Or.inr h3
      · exact Or.inl (List.mem_append.mpr (Or.inr h2))
    · simp only [List.map_cons, List.flatten_cons] at h ⊢
      rcases List.mem_append.mp h with h2 | h2
      · exact Or.inl (List.mem_append.mpr (Or.inl h2))
      · rcases ih v h2 with h3 | h3
        · exact Or.inl (List.mem_append.mpr (Or.inr h3))
        · exact Or.inr h3

theorem mem_subsVals_mergeSubs (sps : List (Str × TagVal)) :
    ∀ (subs : List (Str × List Str)) (v : Str),
      v ∈ subsVals (sps.foldl
        (fun sacc subPair =>
          if (sacc.map Prod.fst).contains subPair.1 then
            updAssoc sacc subPair.1 (fun vals => addTagVal vals subPair.2)
          else sacc) subs) →
      v ∈ subsVals subs ∨ v ∈ (sps.map (fun sp => tagsOfTagVal sp.2)).flatten := by
  induction sps with
  | nil => intro subs v h; exact Or.inl h
  | cons sp rest ih =>
    intro subs v h
    rw [List.foldl_cons] at h
    rcases ih _ v h with h2 | h2
    · split at h2
      · rcases mem_updAssoc_vals (fun vals => vals) (fun v => v ∈ tagsOfTagVal sp.2)
          sp.1 (fun vals => addTagVal vals sp.2)
          (fun b v hv => mem_addTagVal b sp.2 v hv) subs v h2 with h3 | h3
        · exact Or.inl h3
        · simp only [List.map_cons, List.flatten_cons]
          exact Or.inr (List.mem_append.mpr (Or.inl h3))
      · exact Or.inl h2
    · simp only [List.map_cons, List.flatten_cons]
      exact Or.inr (List.mem_append.mpr (Or.inr h2))

theorem mem_taxoVals_mergeBookTax (bt : BookTaxo) :
    ∀ (m : Taxo) (v : Str), v ∈ taxoVals (mergeBookTax m bt) →
      v ∈ taxoVals m ∨ v ∈ tagsOfBookTax bt := by
  induction bt with
  | nil => intro m v h; exact Or.inl h
  | cons mp rest ih =>
    intro m v h
    unfold mergeBookTax at h ih
    rw [List.foldl_cons] at h
    rcases ih _ v h with h2 | h2
    · split at h2
      · unfold taxoVals at h2
        rcases mem_updAssoc_vals subsVals
          (fun v => v ∈ (mp.2.map (fun sp => tagsOfTagVal sp.2)).flatten)
          mp.1
          (fun subs => mp.2.foldl
            (fun sacc subPair =>
              if (sacc.map Prod.fst).contains subPair.1 then
                updAssoc sacc subPair.1 (fun vals => addTagVal vals subPair.2)
              else sacc) subs)
          (fun b v hv => mem_subsVals_mergeSubs mp.2 b v hv) m v h2 with h3 | h3
        · refine Or.inl ?_
          unfold taxoVals
          exact h3
        · unfold tagsOfBookTax
          simp only [List.map_cons, List.flatten_cons]
          exact Or.inr (List.mem_append.mpr (Or.inl h3))
      · exact Or.inl h2
    · unfold tagsOfBookTax at h2 ⊢
      simp only [List.map_cons, List.flatten_cons]
      exact Or.inr (List.mem_append.mpr (Or.inr h2))

theorem taxoVals_skeleton : taxoVals taxonomySkeleton = [] := by rfl

theorem mem_taxoVals_merge (S : List Book) (v : Str)
    (h : v ∈ taxoVals (merge_taxonomy_from_books S)) : v ∈ allTagsOf S := by
  suffices hgen : ∀ (bs : List Book) (m : Taxo), v ∈ taxoVals (bs.foldl
      (fun m b => match b.classification with
        | ClassifData.parsed t => mergeBookTax m t
        | _ => m) m) → v ∈ taxoVals m ∨ v ∈ allTagsOf bs by
    rcases hgen S taxonomySkeleton h with h2 | h2
    · rw [taxoVals_skeleton] at h2
      exact absurd h2 (List.not_mem_nil v)
    · exact h2
  intro bs
  induction bs with
  | nil => intro m hm; exact Or.inl hm
  | cons b rest ih =>
    intro m hm
    rw [List.foldl_cons] at hm
    rcases hcl : b.classification with _ | _ | t
    all_goals rw [hcl] at hm
    · rcases ih m hm with h2 | h2
      · exact Or.inl h2
      · refine Or.inr ?_
        unfold allTagsOf
        simp only [List.map_cons, List.flatten_cons]
        exact List.mem_append.mpr (Or.inr h2)
    · rcases ih m hm with h2 | h2
      · exact Or.inl h2
      · refine Or.inr ?_
        unfold allTagsOf
        simp only [List.map_cons, List.flatten_cons]
        exact List.mem_append.mpr (Or.inr h2)
    · rcases ih (mergeBookTax m t) hm with h2 | h2
      · rcases mem_taxoVals_mergeBookTax t m v h2 with h3 | h3
        · exact Or.inl h3
        · refine Or.inr ?_
          unfold allTagsOf
          simp only [List.map_cons, List.flatten_cons]
          refine List.mem_append.mpr (Or.inl ?_)
          unfold tagsOfBook
          rw [hcl]
          exact h3
      · refine Or.inr ?_
        unfold allTagsOf
        simp only [List.map_cons, List.flatten_cons]
        exact List.mem_append.mpr (Or.inr h2)

theorem lookupAssoc_mem {β : Type} (l : List (Str × β)) (k : Str) (b : β)
    (h : lookupAssoc l k = some b) : (k, b) ∈ l := by
  induction l with
  | nil => simp [lookupAssoc] at h
  | cons e rest ih =>
    rcases e with ⟨ek, ev⟩
    unfold lookupAssoc at h
    split_ifs at h with hk
    · obtain rfl := Option.some.inj h
      rw [hk]
      exact List.mem_cons_self _ _
    · exact List.mem_cons_of_mem _ (ih h)

theorem tagval_sub_bookTax (bt : BookTaxo) (main sub : Str)
    (bsubs : List (Str × TagVal)) (tv : TagVal)
    (h1 : lookupAssoc bt main = some bsubs) (h2 : lookupAssoc bsubs sub = some tv) :
    ∀ v ∈ tagsOfTagVal tv, v ∈ tagsOfBookTax bt := by
  intro v hv
  unfold tagsOfBookTax
  rw [List.mem_flatten]
  refine ⟨(bsubs.map (fun sp => tagsOfTagVal sp.2)).flatten,
    List.mem_map.mpr ⟨(main, bsubs), lookupAssoc_mem bt main bsubs h1, rfl⟩, ?_⟩
  rw [List.mem_flatten]
  exact ⟨tagsOfTagVal tv,
    List.mem_map.mpr ⟨(sub, tv), lookupAssoc_mem bsubs sub tv h2, rfl⟩, hv⟩

theorem slot_sub_taxoVals (merged : Taxo) (mp : Str × List (Str × List Str))
    (sp : Str × List Str) (hmp : mp ∈ merged) (hsp : sp ∈ mp.2) :
    ∀ v ∈ sp.2, v ∈ taxoVals merged := by
  intro v hv
  unfold taxoVals
  rw [List.mem_flatten]
  refine ⟨subsVals mp.2, List.mem_map.mpr ⟨mp, hmp, rfl⟩, ?_⟩
  unfold subsVals
  rw [List.mem_flatten]
  exact ⟨sp.2, List.mem_map.mpr ⟨sp, hsp, rfl⟩, hv⟩

theorem score_zero_of_disjoint (merged : Taxo) (r : Book)
    (hdis : ∀ v ∈ tagsOfBook r, v ∉ taxoVals merged) :
    calculate_taxonomy_score merged r = 0 := by
  unfold calculate_taxonomy_score
  rcases hcl : r.classification with _ | _ | bt
  · rfl
  · rfl
  · dsimp only
    split
    · rfl
    · have htags : ∀ v ∈ tagsOfBookTax bt, v ∉ taxoVals merged := by
        intro v hv
        refine hdis v ?_
        unfold tagsOfBook
        rw [hcl]
        exact hv
      rw [List.sum_eq_zero]
      intro x hx
      obtain ⟨mp, hmp, rfl⟩ := List.mem_map.mp hx
      unfold mainSlotScore
      rcases hlk : lookupAssoc bt mp.1 with _ | bsubs
      · rfl
      · dsimp only
        split
        · rfl
        · rw [List.sum_eq_zero]
          intro y hy
          obtain ⟨sp, hsp, rfl⟩ := List.mem_map.mp hy
          unfold subSlotScore
          split
          · rfl
          · rcases hlk2 : lookupAssoc bsubs sp.1 with _ | tv
            · rfl
            · rcases tv with tvs | tvl
              · dsimp only
                split
                · rfl
                · split
                  · exfalso
                    rename_i hc
                    refine htags tvs ?_ (slot_sub_taxoVals merged mp sp hmp hsp tvs
                      (by simpa using hc))
                    exact tagval_sub_bookTax bt mp.1 sp.1 bsubs (TagVal.s tvs) hlk hlk2
                      tvs (by simp [tagsOfTagVal])
                  · rfl
              · dsimp only
                split
                · rfl
                · unfold interCount
                  rw [List.length_eq_zero]
                  rw [List.filter_eq_nil_iff]
                  intro v hv
                  have hvmem : v ∈ tvl := List.dedup_subset _ hv
                  have hvtags : v ∈ tagsOfBookTax bt :=
                    tagval_sub_bookTax bt mp.1 sp.1 bsubs (TagVal.l tvl) hlk hlk2 v
                      (by simpa [tagsOfTagVal] using hvmem)
                  intro hcont
                  refine htags v hvtags ?_
                  exact slot_sub_taxoVals merged mp sp hmp hsp v (by simpa using hcont)

/-- Claim C8: a record sharing no taxonomy tags with the seed set
always scores 0 against the merged taxonomy, taxonomy scores are
non-negative, and hence every seed record scores at least as much as
such an unrelated record. -/
theorem C8_merge_dominance (S : List Book) (s r : Book) (hs : s ∈ S)
    (hdisj : ∀ v ∈ tagsOfBook r, v ∉ allTagsOf S) :
    calculate_taxonomy_score (merge_taxonomy_from_books S) r = 0 ∧
    calculate_taxonomy_score (merge_taxonomy_from_books S) r ≤
      calculate_taxonomy_score (merge_taxonomy_from_books S) s ∧
    ∀ b : Book, 0 ≤ calculate_taxonomy_score (merge_taxonomy_from_books S) b := by
  have hzero : calculate_taxonomy_score (merge_taxonomy_from_books S) r = 0 := by
    refine score_zero_of_disjoint _ r ?_
    intro v hv hmem
    exact hdisj v hv (mem_taxoVals_merge S v hmem)
  exact ⟨hzero, by rw [hzero]; exact Nat.zero_le _, fun b => Nat.zero_le _⟩

/-- A record sharing no tags with `seedBookX`. -/
def otherTagsBookZ : Book :=
  { id := lit "z",
    classification := ClassifData.parsed
      [(lit "Genre Littéraire", [(lit "Fiction", TagVal.l [lit "u1"])])] }

theorem C8_witness :
    calculate_taxonomy_score (merge_taxonomy_from_books [seedBookX]) otherTagsBookZ = 0 ∧
    calculate_taxonomy_score (merge_taxonomy_from_books [seedBookX]) otherTagsBookZ ≤
      calculate_taxonomy_score (merge_taxonomy_from_books [seedBookX]) seedBookX ∧
    ∀ b : Book, 0 ≤ calculate_taxonomy_score (merge_taxonomy_from_books [seedBookX]) b :=
  C8_merge_dominance [seedBookX] seedBookX otherTagsBookZ
    (List.mem_singleton.mpr rfl) (by decide)

theorem C2_witness :
    ∃ seeds expansion : List ScoredBook,
      ([] : List ScoredBook) = seeds ++ expansion ∧
      List.Sorted scoreGe seeds ∧
      List.Sorted scoreGe expansion ∧
      (∀ p ∈ expansion,
        ((filter_books_by_keywords [] [] taFieldsDefault).1.map
            (fun q => q.1.id)).contains p.1.id = false) ∧
      (seeds = (filter_books_by_keywords [] [] taFieldsDefault).1 ∨
        seeds = (filter_books_by_keywords [] [] taFieldsDefault).2 ∨
        seeds = []) :=
  C2_segments [] [] [] [] rfl

theorem C4_witness :
    selectBranch
      (filter_books_by_keywords [seedBookX] [(lit "titre", [lit "x"])] taFieldsDefault).1
      (filter_books_by_keywords [seedBookX] [(lit "titre", [lit "x"])] taFieldsDefault).2
      (hasTitleOrAuthor [(lit "titre", [lit "x"])]) = some Branch.s1 :=
  (C4_tier_invariants [seedBookX] [(lit "titre", [lit "x"])]).2.2.1
    (of_decide_eq_true (by with_unfolding_all rfl))

theorem C1_witness :
    (filter_categories [seedBookX, taxBookY] [(lit "titre", [lit "x"])] []).isSome :=
  C1_selector_exhaustive [seedBookX, taxBookY] [(lit "titre", [lit "x"])] []
